import Mathlib

/-!
Verification development for the text2epub core: a shallow embedding of
`app/core/chapter_parser.py`, the hierarchy/TOC-assembly part of
`app/core/epub_builder.py`, and the title-swap operation of
`app/controller.py`, together with theorems settling the specified
properties of these functions.

Pattern matching and template expansion are delegated by the source to the
standard `re` library; following the source's boundary, a compiled regular
expression is modelled as an abstract search function
`String → Option MatchInfo`, and concrete instances used in examples
implement the behaviour of the concrete patterns they stand for.
-/

set_option maxHeartbeats 1000000
set_option maxRecDepth 4000

/-- Characters treated as whitespace by the model of Python `str.strip`. -/
def isSpaceChar (c : Char) : Bool :=
  c = ' ' || c = '\t' || c = '\n' || c = '\r' || c = '\x0b' || c = '\x0c'

/-- Strip whitespace from both ends of a character list. -/
def stripChars (l : List Char) : List Char :=
  ((l.dropWhile isSpaceChar).reverse.dropWhile isSpaceChar).reverse

/-- Model of Python `str.strip()` (ASCII whitespace). -/
def pyStrip (s : String) : String :=
  (stripChars s.toList).asString

theorem toList_asString (l : List Char) : (l.asString).toList = l := rfl

theorem dropWhile_head_false {α : Type} {p : α → Bool} :
    ∀ {l : List α} {x : α} {xs : List α}, l.dropWhile p = x :: xs → p x = false := by
  intro l
  induction l with
  | nil => intro x xs h; simp [List.dropWhile] at h
  | cons a as ih =>
      intro x xs h
      by_cases hp : p a
      · rw [List.dropWhile_cons, if_pos hp] at h
        exact ih h
      · rw [List.dropWhile_cons, if_neg hp] at h
        cases h
        simpa using hp

theorem dropWhile_of_head_false {α : Type} {p : α → Bool} {l : List α}
    (h : ∀ x xs, l = x :: xs → p x = false) : l.dropWhile p = l := by
  cases l with
  | nil => rfl
  | cons a as =>
      rw [List.dropWhile_cons, if_neg]
      simp [h a as rfl]

theorem getLast?_of_suffix {α : Type} {s t : List α} (h : s <:+ t) (hne : s ≠ []) :
    t.getLast? = s.getLast? := by
  obtain ⟨u, rfl⟩ := h
  rw [List.getLast?_append]
  cases hs : s.getLast? with
  | none => exact absurd (List.getLast?_eq_none_iff.mp hs) hne
  | some a => rfl

theorem stripChars_idem (l : List Char) : stripChars (stripChars l) = stripChars l := by
  have ha : ∀ x xs, l.dropWhile isSpaceChar = x :: xs → isSpaceChar x = false :=
    fun _ _ h => dropWhile_head_false h
  have hb : ∀ x xs,
      (l.dropWhile isSpaceChar).reverse.dropWhile isSpaceChar = x :: xs →
        isSpaceChar x = false :=
    fun _ _ h => dropWhile_head_false h
  unfold stripChars
  have hbrev :
      ((l.dropWhile isSpaceChar).reverse.dropWhile isSpaceChar).reverse.dropWhile isSpaceChar
        = ((l.dropWhile isSpaceChar).reverse.dropWhile isSpaceChar).reverse := by
    apply dropWhile_of_head_false
    intro x xs hx
    -- the head of the reversed list is the last of the stripped list,
    -- which is the head of `l.dropWhile isSpaceChar`
    have hbne : (l.dropWhile isSpaceChar).reverse.dropWhile isSpaceChar ≠ [] := by
      intro h; rw [h] at hx; simp at hx
    have hlast :
        ((l.dropWhile isSpaceChar).reverse.dropWhile isSpaceChar).getLast?
          = (l.dropWhile isSpaceChar).reverse.getLast? :=
      (getLast?_of_suffix (List.dropWhile_suffix _) hbne).symm
    have hhead :
        ((l.dropWhile isSpaceChar).reverse.dropWhile isSpaceChar).reverse.head?
          = (l.dropWhile isSpaceChar).head? := by
      rw [List.head?_reverse, hlast, List.getLast?_reverse]
    rw [hx] at hhead
    cases hae : l.dropWhile isSpaceChar with
    | nil => rw [hae] at hhead; simp at hhead
    | cons y ys =>
        rw [hae] at hhead
        simp at hhead
        rw [hhead]
        exact ha y ys hae
  rw [hbrev, List.reverse_reverse]
  have hbb :
      ((l.dropWhile isSpaceChar).reverse.dropWhile isSpaceChar).dropWhile isSpaceChar
        = (l.dropWhile isSpaceChar).reverse.dropWhile isSpaceChar := by
    apply dropWhile_of_head_false
    intro x xs hx
    exact hb x xs hx
  rw [hbb]

theorem pyStrip_idem (s : String) : pyStrip (pyStrip s) = pyStrip s := by
  unfold pyStrip
  rw [toList_asString, stripChars_idem]

/-- TOC item of `app/core/models.py`: title, inclusive line range, level and
level name. -/
structure TocItem where
  title : String
  start_line : Nat
  end_line : Nat
  level : Nat
  level_name : String
deriving DecidableEq, Repr

/-- Rule level of `app/core/models.py`: a named level owning raw rule lines. -/
structure RuleLevel where
  name : String
  rules : List String
deriving DecidableEq, Repr

/-- Behaviour of a Python `re.Match` object: template expansion is delegated
to the pattern-matching library, so a match is modelled by its `expand`
behaviour. -/
structure MatchInfo where
  expand : String → String

/-- A matcher models a compiled `re.Pattern`: `search` over a string. -/
def Matcher : Type := String → Option MatchInfo

/-- CompiledRule of `chapter_parser.py`: compiled regex, replacement
template and the original rule text. -/
structure CompiledRule where
  regex : Matcher
  replacement : String
  raw_rule : String

/-- CompiledLevel of `chapter_parser.py`. -/
structure CompiledLevel where
  level_no : Nat
  level_name : String
  rules : List CompiledRule

/-- MatchResult of `chapter_parser.py`. -/
structure MatchResult where
  level_no : Nat
  level_name : String
  rule : CompiledRule
  matched_text : String
  rendered_title : String

/-- LineCheckResult of `chapter_parser.py`. -/
structure LineCheckResult where
  matched : Option MatchResult
  accepted : Bool
  reason : String

/-- Errors of rule compilation: `patternError` models `re.error`
(a malformed pattern reported by the regex library), `valueError` models
the `ValueError` raised by `_split_rule_line`. -/
inductive CompileError where
  | patternError (msg : String)
  | valueError (msg : String)
deriving DecidableEq, Repr

/-- normalize_title of `app/core/utils.py`: strip, fall back when blank. -/
def normalize_title (title fallback : String) : String :=
  let value := pyStrip title
  if value.isEmpty then fallback else value

/-- default_rule_levels of `chapter_parser.py` (verbatim rule data). -/
def default_rule_levels : List RuleLevel :=
  [ RuleLevel.mk "卷"
      [ "^第([零〇一二三四五六七八九十百千万两0-9]+)卷[\\s:：-]*(.*)$ => 第\\1卷 \\2"
      , "^卷([零〇一二三四五六七八九十百千万两0-9]+)[\\s:：-]*(.*)$ => 第\\1卷 \\2"
      , "^(?:VOL|Volume)\\s+(\\d+)[\\s:：-]*(.*)$ => 第\\1卷 \\2" ]
  , RuleLevel.mk "章"
      [ "^第([零〇一二三四五六七八九十百千万两0-9]+)章[\\s:：-]*(.*)$ => 第\\1章 \\2"
      , "^第([零〇一二三四五六七八九十百千万两0-9]+)节[\\s:：-]*(.*)$ => 第\\1节 \\2"
      , "^([零〇一二三四五六七八九十百千万两]+)、\\s*(.*)$ => 第\\1章 \\2"
      , "^(?:Chapter|CHAPTER)\\s+([IVXLCDM\\d]+)[\\s:：-]*(.*)$ => Chapter \\1 \\2" ]
  ]

/-- Whether `sep` is an initial segment of the list. -/
def isPrefixL : List Char → List Char → Bool
  | [], _ => true
  | _ :: _, [] => false
  | s :: ss, c :: cs => s = c && isPrefixL ss cs

/-- Model of Python `str.split(sep, 1)`: split at the first occurrence of
`sep`, or `none` when `sep` does not occur. -/
def splitFirst (sep : List Char) : List Char → Option (List Char × List Char)
  | [] => none
  | c :: cs =>
      if isPrefixL sep (c :: cs) then some ([], (c :: cs).drop sep.length)
      else
        match splitFirst sep cs with
        | some (l, r) => some (c :: l, r)
        | none => none

/-- _split_rule_line of `chapter_parser.py`: strip, reject blank, split on
the first `=>` into pattern and template, defaulting the template to the
whole-match backreference. -/
def splitRuleLine (rule_line : String) : Except CompileError (String × String) :=
  let text := pyStrip rule_line
  if text.isEmpty then Except.error (CompileError.valueError "规则为空")
  else
    match splitFirst ['=', '>'] text.toList with
    | some (left, right) => Except.ok (pyStrip left.asString, pyStrip right.asString)
    | none => Except.ok (text, "\\g<0>")

/-- _normalize_replacement of `chapter_parser.py`. -/
def normalizeReplacement (value : String) : String :=
  if value.isEmpty then "\\g<0>" else value

/-- _compile_rule of `chapter_parser.py`, over an abstract pattern compiler
`cp` modelling `re.compile` (errors model `re.error`). -/
def compileRule (cp : String → Except String Matcher) (rule_line : String) :
    Except CompileError CompiledRule :=
  match splitRuleLine rule_line with
  | Except.error e => Except.error e
  | Except.ok pr =>
      match cp pr.1 with
      | Except.error e => Except.error (CompileError.patternError e)
      | Except.ok m =>
          Except.ok (CompiledRule.mk m (normalizeReplacement pr.2) rule_line)

/-- Inner loop of compile_rule_levels: strip each rule line, skip blanks,
compile the rest in order. -/
def compileLevelRules (cp : String → Except String Matcher) :
    List String → Except CompileError (List CompiledRule)
  | [] => Except.ok []
  | line :: rest =>
      let text := pyStrip line
      if text.isEmpty then compileLevelRules cp rest
      else
        match compileRule cp text with
        | Except.error e => Except.error e
        | Except.ok r =>
            match compileLevelRules cp rest with
            | Except.error e => Except.error e
            | Except.ok rs => Except.ok (r :: rs)

/-- Level loop of compile_rule_levels, numbering levels from `idx`. -/
def compileRuleLevelsAux (cp : String → Except String Matcher) :
    Nat → List RuleLevel → Except CompileError (List CompiledLevel)
  | _, [] => Except.ok []
  | idx, level :: rest =>
      let name := normalize_title level.name ("L" ++ toString idx)
      match compileLevelRules cp level.rules with
      | Except.error e => Except.error e
      | Except.ok rules =>
          match compileRuleLevelsAux cp (idx + 1) rest with
          | Except.error e => Except.error e
          | Except.ok tail =>
              if rules.isEmpty then Except.ok tail
              else Except.ok (CompiledLevel.mk idx name rules :: tail)

/-- compile_rule_levels of `chapter_parser.py` (levels numbered from 1). -/
def compile_rule_levels (cp : String → Except String Matcher)
    (rule_levels : List RuleLevel) : Except CompileError (List CompiledLevel) :=
  compileRuleLevelsAux cp 1 rule_levels

/-- One rule attempt of detect_heading_level: search the trimmed line, and
on a hit expand the template, strip it, and fall back to the trimmed line
when the expansion is blank. -/
def detectRule (text : String) (lvl : CompiledLevel) (r : CompiledRule) :
    Option MatchResult :=
  match r.regex text with
  | none => none
  | some m =>
      let rendered := pyStrip (m.expand r.replacement)
      some (MatchResult.mk lvl.level_no lvl.level_name r text
        (normalize_title rendered text))

/-- Rule loop of detect_heading_level within one level. -/
def detectInLevel (text : String) (lvl : CompiledLevel) :
    List CompiledRule → Option MatchResult
  | [] => none
  | r :: rs =>
      match detectRule text lvl r with
      | some res => some res
      | none => detectInLevel text lvl rs

/-- Level loop of detect_heading_level. -/
def detectInLevels (text : String) : List CompiledLevel → Option MatchResult
  | [] => none
  | lvl :: rest =>
      match detectInLevel text lvl lvl.rules with
      | some res => some res
      | none => detectInLevels text rest

/-- detect_heading_level of `chapter_parser.py`. -/
def detect_heading_level (line : String) (compiled_levels : List CompiledLevel) :
    Option MatchResult :=
  let text := pyStrip line
  if text.isEmpty then none
  else detectInLevels text compiled_levels

/-- check_line_for_toc of `chapter_parser.py`. -/
def check_line_for_toc (line : String) (compiled_levels : List CompiledLevel)
    (max_len : Nat := 180) : LineCheckResult :=
  let text := pyStrip line
  if text.isEmpty then LineCheckResult.mk none false "空行"
  else if max_len < text.length then
    LineCheckResult.mk none false ("超过最大长度 " ++ toString max_len)
  else
    match detect_heading_level text compiled_levels with
    | none => LineCheckResult.mk none false "未命中规则"
    | some m => LineCheckResult.mk (some m) true "命中规则"

/-- Sort key used by `chapter_parser.py` and `epub_builder.py`:
`(start_line, level)` in lexicographic order. -/
def tocKeyLE (a b : TocItem) : Prop :=
  a.start_line < b.start_line ∨ (a.start_line = b.start_line ∧ a.level ≤ b.level)

instance (a b : TocItem) : Decidable (tocKeyLE a b) := by
  unfold tocKeyLE; infer_instance

theorem tocKeyLE_total (a b : TocItem) : tocKeyLE a b ∨ tocKeyLE b a := by
  unfold tocKeyLE
  rcases Nat.lt_trichotomy a.start_line b.start_line with h | h | h
  · exact Or.inl (Or.inl h)
  · rcases Nat.le_total a.level b.level with hl | hl
    · exact Or.inl (Or.inr ⟨h, hl⟩)
    · exact Or.inr (Or.inr ⟨h.symm, hl⟩)
  · exact Or.inr (Or.inl h)

theorem tocKeyLE_trans {a b c : TocItem} (h1 : tocKeyLE a b) (h2 : tocKeyLE b c) :
    tocKeyLE a c := by
  unfold tocKeyLE at h1 h2 ⊢
  rcases h1 with h1 | ⟨h1e, h1l⟩
  · rcases h2 with h2 | ⟨h2e, _⟩
    · exact Or.inl (h1.trans h2)
    · exact Or.inl (h2e ▸ h1)
  · rcases h2 with h2 | ⟨h2e, h2l⟩
    · exact Or.inl (h1e ▸ h2)
    · exact Or.inr ⟨h1e.trans h2e, h1l.trans h2l⟩

/-- Stable insertion into a key-sorted list: the new item goes after every
existing item that compares less-or-equal to it. -/
def insertByKey (x : TocItem) : List TocItem → List TocItem
  | [] => [x]
  | y :: ys => if tocKeyLE y x then y :: insertByKey x ys else x :: y :: ys

/-- Model of Python's stable `sorted(items, key=(start_line, level))`. -/
def sortItems (items : List TocItem) : List TocItem :=
  items.foldl (fun acc x => insertByKey x acc) []

theorem insertByKey_perm (x : TocItem) (l : List TocItem) :
    (insertByKey x l).Perm (x :: l) := by
  induction l with
  | nil => rfl
  | cons y ys ih =>
      unfold insertByKey
      by_cases h : tocKeyLE y x
      · rw [if_pos h]
        exact (ih.cons y).trans (List.Perm.swap x y ys)
      · rw [if_neg h]

theorem insertByKey_sorted {x : TocItem} {l : List TocItem}
    (hl : l.Pairwise tocKeyLE) : (insertByKey x l).Pairwise tocKeyLE := by
  induction l with
  | nil => simp [insertByKey]
  | cons y ys ih =>
      have hy : ∀ z ∈ ys, tocKeyLE y z := (List.pairwise_cons.mp hl).1
      have hys : ys.Pairwise tocKeyLE := (List.pairwise_cons.mp hl).2
      unfold insertByKey
      by_cases h : tocKeyLE y x
      · rw [if_pos h]
        refine List.pairwise_cons.mpr ⟨?_, ih hys⟩
        intro z hz
        have := (insertByKey_perm x ys).mem_iff.mp hz
        rcases List.mem_cons.mp this with rfl | hz2
        · exact h
        · exact hy z hz2
      · rw [if_neg h]
        have hxy : tocKeyLE x y := (tocKeyLE_total x y).resolve_right h
        refine List.pairwise_cons.mpr ⟨?_, hl⟩
        intro z hz
        rcases List.mem_cons.mp hz with rfl | hz2
        · exact hxy
        · exact tocKeyLE_trans hxy (hy z hz2)

theorem sortItems_perm (items : List TocItem) : (sortItems items).Perm items := by
  have key : ∀ (xs : List TocItem) (acc : List TocItem),
      (xs.foldl (fun acc x => insertByKey x acc) acc).Perm (acc ++ xs) := by
    intro xs
    induction xs with
    | nil => intro acc; simp
    | cons x xs ih =>
        intro acc
        show (xs.foldl (fun acc x => insertByKey x acc) (insertByKey x acc)).Perm _
        exact (ih _).trans
          (((insertByKey_perm x acc).append_right xs).trans List.perm_middle.symm)
  simpa using key items []

theorem sortItems_sorted (items : List TocItem) :
    (sortItems items).Pairwise tocKeyLE := by
  have key : ∀ (xs : List TocItem) (acc : List TocItem),
      acc.Pairwise tocKeyLE →
      (xs.foldl (fun acc x => insertByKey x acc) acc).Pairwise tocKeyLE := by
    intro xs
    induction xs with
    | nil => intro acc h; simpa using h
    | cons x xs ih =>
        intro acc h
        exact ih _ (insertByKey_sorted h)
  exact key items [] (List.Pairwise.nil)

/-- _next_greater_start of `chapter_parser.py`: least start line among the
items whose start line strictly exceeds `start_line`. -/
def nextGreaterStart (items : List TocItem) (start_line : Nat) : Option Nat :=
  ((items.map (fun item => item.start_line)).filter
    (fun s => decide (start_line < s))).min?

/-- recompute_ranges of `chapter_parser.py`: sort by `(start_line, level)`,
set each end line to one before the next greater start line (or to the last
corpus line), clamped to be at least the start line. -/
def recompute_ranges (items : List TocItem) (total_lines : Nat) : List TocItem :=
  if items.isEmpty then []
  else
    let sorted_items := sortItems items
    sorted_items.map (fun item =>
      let e := match nextGreaterStart sorted_items item.start_line with
        | some nxt => nxt - 1
        | none => total_lines - 1
      { item with end_line := if e < item.start_line then item.start_line else e })

/-- Detection loop of parse_toc_items: one single-line item per accepted
line, numbered from `idx`. -/
def detectItemsAux (compiled : List CompiledLevel) : Nat → List String → List TocItem
  | _, [] => []
  | idx, line :: rest =>
      let checked := check_line_for_toc line compiled
      if checked.accepted then
        match checked.matched with
        | some m =>
            TocItem.mk m.rendered_title idx idx m.level_no m.level_name
              :: detectItemsAux compiled (idx + 1) rest
        | none => detectItemsAux compiled (idx + 1) rest
      else detectItemsAux compiled (idx + 1) rest

/-- The `rule_levels or default_rule_levels()` resolution of
parse_toc_items: a `None`/empty rule set falls back to the defaults. -/
def resolveLevels (rule_levels : Option (List RuleLevel)) : List RuleLevel :=
  match rule_levels with
  | none => default_rule_levels
  | some rl => if rl.isEmpty then default_rule_levels else rl

/-- parse_toc_items of `chapter_parser.py`, over the abstract pattern
compiler `cp`; a compile failure propagates as in Python. -/
def parse_toc_items (cp : String → Except String Matcher) (lines : List String)
    (rule_levels : Option (List RuleLevel)) : Except CompileError (List TocItem) :=
  if lines.isEmpty then Except.ok []
  else
    let levels := resolveLevels rule_levels
    match compile_rule_levels cp levels with
    | Except.error e => Except.error e
    | Except.ok compiled_levels =>
      if compiled_levels.isEmpty then
        Except.ok [TocItem.mk "正文" 0 (lines.length - 1) 1 "章节"]
      else
        let detected := detectItemsAux compiled_levels 0 lines
        if detected.isEmpty then
          let deepest := compiled_levels.getLastD (CompiledLevel.mk 0 "" [])
          Except.ok [TocItem.mk "正文" 0 (lines.length - 1)
            deepest.level_no deepest.level_name]
        else Except.ok (recompute_ranges detected lines.length)

/-- Hierarchy node of `_build_hierarchy` in `epub_builder.py`: an item and
its ordered children. -/
inductive HNode where
  | node : TocItem → List HNode → HNode
deriving Repr

/-- Item of a hierarchy node. -/
def HNode.item : HNode → TocItem
  | HNode.node it _ => it

/-- Children of a hierarchy node. -/
def HNode.children : HNode → List HNode
  | HNode.node _ cs => cs

/-- Deferred attachment of a finished node: appended to the children of the
stack top, or to the roots when the stack is empty (this is where the
Python code's in-place list mutation lands the node). -/
def attachNode (n : HNode) : List (TocItem × List HNode) → List HNode →
    List (TocItem × List HNode) × List HNode
  | [], roots => ([], roots ++ [n])
  | (pt, pcs) :: rest, roots => ((pt, pcs ++ [n]) :: rest, roots)

/-- Pop loop of `_build_hierarchy` carrying the node just closed: while the
stack top has level ≥ the incoming level, close it as well. -/
def popCarry (lvl : Nat) (pending : HNode) : List (TocItem × List HNode) →
    List HNode → List (TocItem × List HNode) × List HNode
  | [], roots => ([], roots ++ [pending])
  | (t, cs) :: rest, roots =>
      if lvl ≤ t.level then popCarry lvl (HNode.node t (cs ++ [pending])) rest roots
      else ((t, cs ++ [pending]) :: rest, roots)

/-- The `while stack and stack[-1].level >= item.level: stack.pop()` loop of
`_build_hierarchy`, with attachments made explicit. -/
def popWhileGE (lvl : Nat) (st : List (TocItem × List HNode)) (roots : List HNode) :
    List (TocItem × List HNode) × List HNode :=
  match st with
  | [] => ([], roots)
  | (t, cs) :: rest =>
      if lvl ≤ t.level then popCarry lvl (HNode.node t cs) rest roots
      else (st, roots)

/-- Close every node still on the stack at the end of the item loop. -/
def flushCarry (pending : HNode) : List (TocItem × List HNode) → List HNode →
    List HNode
  | [], roots => roots ++ [pending]
  | (t, cs) :: rest, roots => flushCarry (HNode.node t (cs ++ [pending])) rest roots

/-- Final collapse of the stack into the roots. -/
def flushStack (st : List (TocItem × List HNode)) (roots : List HNode) : List HNode :=
  match st with
  | [] => roots
  | (t, cs) :: rest => flushCarry (HNode.node t cs) rest roots

/-- Item loop of `_build_hierarchy` over the sorted items. -/
def buildAux : List TocItem → List (TocItem × List HNode) → List HNode → List HNode
  | [], st, roots => flushStack st roots
  | item :: rest, st, roots =>
      let pr := popWhileGE item.level st roots
      buildAux rest ((item, []) :: pr.1) pr.2

/-- _build_hierarchy of `epub_builder.py`: sort by `(start_line, level)` and
run the single-pass stack algorithm. -/
def build_hierarchy (items : List TocItem) : List HNode :=
  buildAux (sortItems items) [] []

/-- Specification form of the forest: a node's subtree is the maximal run of
following items of strictly greater level; the run's complement continues
as its siblings. -/
def forestSpec : List TocItem → List HNode
  | [] => []
  | x :: rest =>
      HNode.node x (forestSpec (rest.takeWhile (fun y => decide (x.level < y.level))))
        :: forestSpec (rest.dropWhile (fun y => decide (x.level < y.level)))
termination_by l => l.length
decreasing_by
  · simp only [List.length_cons]
    exact Nat.lt_succ_of_le (List.Sublist.length_le (List.takeWhile_sublist _))
  · simp only [List.length_cons]
    exact Nat.lt_succ_of_le (List.Sublist.length_le (List.dropWhile_sublist _))

/-- Preorder flattening of a forest, recording each item with the item of
its parent node (`none` for roots). -/
def flattenForest (parent : Option TocItem) : List HNode →
    List (Option TocItem × TocItem)
  | [] => []
  | HNode.node it cs :: rest =>
      (parent, it) :: (flattenForest (some it) cs ++ flattenForest parent rest)

/-- Nearest preceding item (the last one of the prefix) with a strictly
smaller level. -/
def nearestSmaller (pre : List TocItem) (lvl : Nat) : Option TocItem :=
  (pre.filter (fun z => decide (z.level < lvl))).getLast?

/-- Parent specification: each item of the list paired with the nearest
preceding item of strictly smaller level, `pre` being the already-consumed
prefix. -/
def parentSpecAux (pre : List TocItem) : List TocItem →
    List (Option TocItem × TocItem)
  | [] => []
  | x :: rest => (nearestSmaller pre x.level, x) :: parentSpecAux (pre ++ [x]) rest

/-- Parent specification of a whole sorted list. -/
def parentSpecPairs (l : List TocItem) : List (Option TocItem × TocItem) :=
  parentSpecAux [] l

/-- Export TOC entry of `build_epub`: either the content document of an item
(identified by the `doc_map` key `(start_line, level, title)`) or a named
section wrapping child entries. -/
inductive ExportEntry where
  | doc : Nat × Nat × String → ExportEntry
  | sec : String → List ExportEntry → ExportEntry
deriving Repr

/-- The `doc_map` key of `build_epub`. -/
def docKey (item : TocItem) : Nat × Nat × String :=
  (item.start_line, item.level, item.title)

/-- The deepest (content) level: `max(item.level for item in toc_items)`.
The empty case is unreachable in `build_epub` (the list was defaulted). -/
def contentLevelOf : List TocItem → Nat
  | [] => 0
  | x :: xs => xs.foldl (fun m it => max m it.level) x.level

/-- Items at the content level, in order. -/
def contentItemsOf (toc_items : List TocItem) : List TocItem :=
  toc_items.filter (fun item => decide (item.level = contentLevelOf toc_items))

mutual

/-- `to_toc_entries` of `build_epub` on one node: a content-level node with
a registered document maps to that document; any other node wraps its
children's collected entries in one section named after its title, or
contributes nothing when that collection is empty. -/
def entriesOfNode (cl : Nat) (keys : List (Nat × Nat × String)) : HNode →
    List ExportEntry
  | HNode.node item children =>
      if item.level = cl ∧ docKey item ∈ keys then [ExportEntry.doc (docKey item)]
      else
        let child_entries := entriesOfForest cl keys children
        if child_entries.isEmpty then []
        else [ExportEntry.sec item.title child_entries]

/-- `to_toc_entries` extended over a forest, concatenating in order. -/
def entriesOfForest (cl : Nat) (keys : List (Nat × Nat × String)) :
    List HNode → List ExportEntry
  | [] => []
  | n :: ns => entriesOfNode cl keys n ++ entriesOfForest cl keys ns

end

/-- The TOC walk of `build_epub` over the full hierarchy. -/
def tocEntriesOf (toc_items : List TocItem) : List ExportEntry :=
  entriesOfForest (contentLevelOf toc_items)
    ((contentItemsOf toc_items).map docKey) (build_hierarchy toc_items)

/-- The `if not toc_items` defaulting step of `build_epub`. -/
def effectiveItems (lines_len : Nat) (toc_items0 : List TocItem) : List TocItem :=
  if toc_items0.isEmpty then [TocItem.mk "正文" 0 (lines_len - 1) 1 "章节"]
  else toc_items0

/-- TOC assembly of `build_epub` in `epub_builder.py`: reject an empty
corpus, default an empty item list to a single full-span item, compute the
content level and content items, walk the hierarchy, and fall back to the
flat content-document list when the walk yields nothing. -/
def build_epub_toc (lines_len : Nat) (toc_items0 : List TocItem) :
    Except String (List ExportEntry) :=
  if lines_len = 0 then Except.error "文本为空，无法生成 EPUB"
  else
    let toc_items := effectiveItems lines_len toc_items0
    let entries := tocEntriesOf toc_items
    if entries.isEmpty then
      Except.ok ((contentItemsOf toc_items).map (fun it => ExportEntry.doc (docKey it)))
    else Except.ok entries

/-- swap_selected_title of `app/controller.py` over the item collection:
`none` models the unreachable out-of-range read (the selected index is
always in range or -1); otherwise the pair is the updated collection and
whether the swap happened. -/
def swap_selected_title (items : List TocItem) (idx direction : Int) :
    Option (List TocItem × Bool) :=
  let target := idx + direction
  if idx < 0 ∨ target < 0 ∨ (items.length : Int) ≤ target then some (items, false)
  else
    match items[idx.toNat]?, items[target.toNat]? with
    | some a, some b =>
        if a.level ≠ b.level then some (items, false)
        else some (((items.set idx.toNat { a with title := b.title }).set
          target.toNat { b with title := a.title }), true)
    | _, _ => none

/-- Concrete template expansion as performed by `re.Match.expand` for the
templates used here: single-digit group backreferences and the whole-match
backreference; other characters are literal. -/
def expandT (matched : List Char) (groups : List String) : List Char → List Char
  | [] => []
  | '\\' :: 'g' :: '<' :: '0' :: '>' :: rest => matched ++ expandT matched groups rest
  | '\\' :: c :: rest =>
      if '1' ≤ c ∧ c ≤ '9' then
        (groups.getD (c.toNat - '1'.toNat) "").toList ++ expandT matched groups rest
      else c :: expandT matched groups rest
  | c :: rest => c :: expandT matched groups rest

/-- Package a concrete match (matched substring and captured groups) as the
abstract match object. -/
def mkMatch (matched : List Char) (groups : List String) : MatchInfo :=
  MatchInfo.mk (fun tmpl => (expandT matched groups tmpl.toList).asString)

/-- Index of the last occurrence of a character. -/
def lastIndexOf (c : Char) : List Char → Option Nat
  | [] => none
  | x :: xs =>
      match lastIndexOf c xs with
      | some k => some (k + 1)
      | none => if x = c then some 0 else none

/-- Concrete behaviour of `re.compile("^第(.+)" + suffix).search`: anchored
at the start, the line must begin with 第, and the greedy group captures
everything up to the last occurrence of the suffix character (at least one
character). -/
def searchDiSuffix (suffix : Char) : Matcher := fun s =>
  match s.toList with
  | '第' :: rest =>
      match lastIndexOf suffix rest with
      | some k =>
          if 1 ≤ k then some (mkMatch ('第' :: rest.take (k + 1)) [(rest.take k).asString])
          else none
      | none => none
  | _ => none

/-- Concrete behaviour of `re.compile("^第([0-9]+)章\\s*(.*)$").search`. -/
def searchDiZhangDigits : Matcher := fun s =>
  match s.toList with
  | '第' :: rest =>
      let digits := rest.takeWhile (fun c => decide ('0' ≤ c ∧ c ≤ '9'))
      let after := rest.dropWhile (fun c => decide ('0' ≤ c ∧ c ≤ '9'))
      if digits.isEmpty then none
      else
        match after with
        | '章' :: tail =>
            some (mkMatch s.toList
              [digits.asString, (tail.dropWhile isSpaceChar).asString])
        | _ => none
  | _ => none

/-- A matcher that never matches (for inputs where no rule fires). -/
def matcherNone : Matcher := fun _ => none

/-- A pattern compiler that accepts everything and returns the
never-matching matcher. -/
def cpNever : String → Except String Matcher := fun _ => Except.ok matcherNone

/-- Demo compiled rule for the pattern `^第(.+)卷`. -/
def demoVolRule : CompiledRule :=
  CompiledRule.mk (searchDiSuffix '卷') "\\g<0>" "^第(.+)卷"

/-- Demo compiled rule for the pattern `^第(.+)章`. -/
def demoZhangRule : CompiledRule :=
  CompiledRule.mk (searchDiSuffix '章') "\\g<0>" "^第(.+)章"

/-- Demo level list: level 1 matches `^第(.+)卷`, level 2 matches
`^第(.+)章`. -/
def demoLevels : List CompiledLevel :=
  [CompiledLevel.mk 1 "卷" [demoVolRule], CompiledLevel.mk 2 "章" [demoZhangRule]]

/-- Demo compiled rule `^第([0-9]+)章\s*(.*)$ => 第\1章 \2`. -/
def c5Rule : CompiledRule :=
  CompiledRule.mk searchDiZhangDigits "第\\1章 \\2"
    "^第([0-9]+)章\\s*(.*)$ => 第\\1章 \\2"

theorem detectInLevel_none (text : String) (lvl : CompiledLevel) :
    ∀ rs : List CompiledRule, (∀ r ∈ rs, r.regex text = none) →
      detectInLevel text lvl rs = none := by
  intro rs
  induction rs with
  | nil => intro _; rfl
  | cons r rs ih =>
      intro h
      have hr : r.regex text = none := h r (List.mem_cons_self r rs)
      have hrest := ih (fun ru hru => h ru (List.mem_cons_of_mem _ hru))
      simp [detectInLevel, detectRule, hr, hrest]

theorem detectInLevel_first (text : String) (lvl : CompiledLevel)
    (R₁ R₂ : List CompiledRule) (r : CompiledRule) (m : MatchInfo)
    (h1 : ∀ ru ∈ R₁, ru.regex text = none) (hr : r.regex text = some m) :
    detectInLevel text lvl (R₁ ++ r :: R₂)
      = some (MatchResult.mk lvl.level_no lvl.level_name r text
          (normalize_title (pyStrip (m.expand r.replacement)) text)) := by
  induction R₁ with
  | nil => simp [detectInLevel, detectRule, hr]
  | cons a as ih =>
      have ha : a.regex text = none := h1 a (List.mem_cons_self a as)
      have := ih (fun ru hru => h1 ru (List.mem_cons_of_mem _ hru))
      simp [detectInLevel, detectRule, ha, this]

theorem detectInLevels_first (text : String) (L₁ L₂ : List CompiledLevel)
    (L : CompiledLevel) (res : MatchResult)
    (h1 : ∀ lv ∈ L₁, detectInLevel text lv lv.rules = none)
    (hL : detectInLevel text L L.rules = some res) :
    detectInLevels text (L₁ ++ L :: L₂) = some res := by
  induction L₁ with
  | nil => simp [detectInLevels, hL]
  | cons a as ih =>
      have ha : detectInLevel text a a.rules = none := h1 a (List.mem_cons_self a as)
      have := ih (fun lv hlv => h1 lv (List.mem_cons_of_mem _ hlv))
      simp [detectInLevels, ha, this]

theorem detectInLevel_some_inv (text : String) (lvl : CompiledLevel) :
    ∀ (rs : List CompiledRule) (res : MatchResult),
      detectInLevel text lvl rs = some res →
      ∃ r m, r ∈ rs ∧ r.regex text = some m ∧
        res = MatchResult.mk lvl.level_no lvl.level_name r text
          (normalize_title (pyStrip (m.expand r.replacement)) text) := by
  intro rs
  induction rs with
  | nil => intro res h; simp [detectInLevel] at h
  | cons r rs ih =>
      intro res h
      cases hm : r.regex text with
      | none =>
          rw [show detectInLevel text lvl (r :: rs) = detectInLevel text lvl rs by
            simp [detectInLevel, detectRule, hm]] at h
          obtain ⟨r', m', hmem, hr', hres⟩ := ih res h
          exact ⟨r', m', List.mem_cons_of_mem _ hmem, hr', hres⟩
      | some m =>
          rw [show detectInLevel text lvl (r :: rs)
              = some (MatchResult.mk lvl.level_no lvl.level_name r text
                  (normalize_title (pyStrip (m.expand r.replacement)) text)) by
            simp [detectInLevel, detectRule, hm]] at h
          exact ⟨r, m, List.mem_cons_self r rs, hm, (Option.some_inj.mp h).symm⟩

theorem detectInLevels_some_inv (text : String) :
    ∀ (levels : List CompiledLevel) (res : MatchResult),
      detectInLevels text levels = some res →
      ∃ lvl r m, lvl ∈ levels ∧ r ∈ lvl.rules ∧ r.regex text = some m ∧
        res = MatchResult.mk lvl.level_no lvl.level_name r text
          (normalize_title (pyStrip (m.expand r.replacement)) text) := by
  intro levels
  induction levels with
  | nil => intro res h; simp [detectInLevels] at h
  | cons lvl rest ih =>
      intro res h
      cases hl : detectInLevel text lvl lvl.rules with
      | none =>
          rw [show detectInLevels text (lvl :: rest) = detectInLevels text rest by
            simp [detectInLevels, hl]] at h
          obtain ⟨lv, r, m, hmem, hr, hreg, hres⟩ := ih res h
          exact ⟨lv, r, m, List.mem_cons_of_mem _ hmem, hr, hreg, hres⟩
      | some r0 =>
          rw [show detectInLevels text (lvl :: rest) = some r0 by
            simp [detectInLevels, hl]] at h
          obtain ⟨r, m, hmem, hreg, hres⟩ := detectInLevel_some_inv text lvl lvl.rules r0 hl
          exact ⟨lvl, r, m, List.mem_cons_self lvl rest, hmem, hreg,
            (Option.some_inj.mp h) ▸ hres⟩

/-- C4: classification tries levels in their configured order and rules
within a level in their configured order; the first rule of this double
iteration whose pattern matches the trimmed line wins, so coarser levels
take priority on ambiguous lines; in particular with a level-1 rule
`^第(.+)卷` and a level-2 rule `^第(.+)章` the line `第1卷 开端`
classifies at level 1, never at level 2. -/
theorem detect_first_rule_wins :
    (∀ (line : String) (L₁ L₂ : List CompiledLevel) (L : CompiledLevel)
       (R₁ R₂ : List CompiledRule) (r : CompiledRule) (m : MatchInfo),
       (pyStrip line).isEmpty = false →
       (∀ lv ∈ L₁, ∀ ru ∈ lv.rules, ru.regex (pyStrip line) = none) →
       L.rules = R₁ ++ r :: R₂ →
       (∀ ru ∈ R₁, ru.regex (pyStrip line) = none) →
       r.regex (pyStrip line) = some m →
       detect_heading_level line (L₁ ++ L :: L₂)
         = some (MatchResult.mk L.level_no L.level_name r (pyStrip line)
             (normalize_title (pyStrip (m.expand r.replacement)) (pyStrip line))))
  ∧ (detect_heading_level "第1卷 开端" demoLevels).map MatchResult.level_no = some 1 := by
  constructor
  · intro line L₁ L₂ L R₁ R₂ r m hne hL₁ hrules hR₁ hr
    unfold detect_heading_level
    rw [if_neg (by simp [hne])]
    apply detectInLevels_first
    · intro lv hlv
      exact detectInLevel_none _ lv lv.rules (hL₁ lv hlv)
    · rw [hrules]
      exact detectInLevel_first _ L R₁ R₂ r m hR₁ hr
  · rfl

/-- Witness for C4: the priority theorem applied at the demo levels and the
line `第1卷 开端`, all hypotheses discharged by computation. -/
theorem detect_first_rule_wins_witness :
    detect_heading_level "第1卷 开端" demoLevels
      = some (MatchResult.mk 1 "卷" demoVolRule "第1卷 开端"
          (normalize_title
            (pyStrip ((mkMatch ['第', '1', '卷'] ["1"]).expand demoVolRule.replacement))
            "第1卷 开端")) :=
  detect_first_rule_wins.1 "第1卷 开端" [] [CompiledLevel.mk 2 "章" [demoZhangRule]]
    (CompiledLevel.mk 1 "卷" [demoVolRule]) [] [] demoVolRule
    (mkMatch ['第', '1', '卷'] ["1"]) rfl (by simp) rfl (by simp) rfl

/-- C5: on a rule match the rendered title is the trimmed expansion of the
rule's template by the match, replaced by the matched text (the trimmed
line) when the trimmed expansion is blank; in particular the rule
`^第([0-9]+)章\s*(.*)$ => 第\1章 \2` applied to `第3章 起风了` renders
`第3章 起风了`. -/
theorem rendered_title_from_template :
    (∀ (line : String) (levels : List CompiledLevel) (res : MatchResult),
       detect_heading_level line levels = some res →
       res.matched_text = pyStrip line ∧
       ∃ m, res.rule.regex (pyStrip line) = some m ∧
         res.rendered_title
           = normalize_title (pyStrip (m.expand res.rule.replacement)) (pyStrip line))
  ∧ (detect_heading_level "第3章 起风了" [CompiledLevel.mk 2 "章" [c5Rule]]).map
      MatchResult.rendered_title = some "第3章 起风了" := by
  constructor
  · intro line levels res h
    unfold detect_heading_level at h
    by_cases hne : (pyStrip line).isEmpty
    · rw [if_pos (by simp [hne])] at h
      exact absurd h (by simp)
    · rw [if_neg (by simp [hne])] at h
      obtain ⟨lvl, r, m, _, _, hreg, hres⟩ := detectInLevels_some_inv _ levels res h
      subst hres
      exact ⟨rfl, m, hreg, rfl⟩
  · rfl

/-- Witness for C5: the rendering theorem applied at the concrete rule and
line of the claim. -/
theorem rendered_title_from_template_witness :
    (MatchResult.mk 2 "章" c5Rule "第3章 起风了" "第3章 起风了").matched_text
        = pyStrip "第3章 起风了"
    ∧ ∃ m, (MatchResult.mk 2 "章" c5Rule "第3章 起风了" "第3章 起风了").rule.regex
          (pyStrip "第3章 起风了") = some m
        ∧ (MatchResult.mk 2 "章" c5Rule "第3章 起风了" "第3章 起风了").rendered_title
            = normalize_title
                (pyStrip (m.expand (MatchResult.mk 2 "章" c5Rule "第3章 起风了"
                  "第3章 起风了").rule.replacement))
                (pyStrip "第3章 起风了") :=
  rendered_title_from_template.1 "第3章 起风了" [CompiledLevel.mk 2 "章" [c5Rule]]
    (MatchResult.mk 2 "章" c5Rule "第3章 起风了" "第3章 起风了") rfl

/-- C7: classification of a line returns: not accepted with the blank
reason for a line empty after trimming; not accepted with the too-long
reason for a trimmed line longer than the default 180 characters; not
accepted with the no-rule-matched reason when no rule matches; and
otherwise an accepted outcome carrying the heading match. -/
theorem check_line_for_toc_cases (line : String) (levels : List CompiledLevel) :
    ((pyStrip line).isEmpty = true →
      check_line_for_toc line levels = LineCheckResult.mk none false "空行")
  ∧ ((pyStrip line).isEmpty = false → 180 < (pyStrip line).length →
      check_line_for_toc line levels = LineCheckResult.mk none false "超过最大长度 180")
  ∧ ((pyStrip line).isEmpty = false → (pyStrip line).length ≤ 180 →
      detect_heading_level (pyStrip line) levels = none →
      check_line_for_toc line levels = LineCheckResult.mk none false "未命中规则")
  ∧ (∀ m, (pyStrip line).isEmpty = false → (pyStrip line).length ≤ 180 →
      detect_heading_level (pyStrip line) levels = some m →
      check_line_for_toc line levels = LineCheckResult.mk (some m) true "命中规则") := by
  refine ⟨?_, ?_, ?_, ?_⟩
  · intro h
    simp [check_line_for_toc, h]
  · intro h1 h2
    unfold check_line_for_toc
    rw [if_neg (by simp [h1]), if_pos h2]
    rfl
  · intro h1 h2 h3
    unfold check_line_for_toc
    rw [if_neg (by simp [h1]), if_neg (by omega), h3]
  · intro m h1 h2 h3
    unfold check_line_for_toc
    rw [if_neg (by simp [h1]), if_neg (by omega), h3]

/-- A 181-character line, longer than the default length bound. -/
def longLine : String := String.mk (List.replicate 181 'a')

/-- Witness for C7: the four classification outcomes at concrete lines. -/
theorem check_line_for_toc_cases_witness :
    check_line_for_toc "" demoLevels = LineCheckResult.mk none false "空行"
  ∧ check_line_for_toc longLine demoLevels
      = LineCheckResult.mk none false "超过最大长度 180"
  ∧ check_line_for_toc "abc" demoLevels = LineCheckResult.mk none false "未命中规则"
  ∧ check_line_for_toc "第1卷 开端" demoLevels
      = LineCheckResult.mk
          (some (MatchResult.mk 1 "卷" demoVolRule "第1卷 开端" "第1卷"))
          true "命中规则" :=
  ⟨(check_line_for_toc_cases "" demoLevels).1 rfl,
   (check_line_for_toc_cases longLine demoLevels).2.1 rfl (by decide),
   (check_line_for_toc_cases "abc" demoLevels).2.2.1 rfl (by decide) rfl,
   (check_line_for_toc_cases "第1卷 开端" demoLevels).2.2.2
     (MatchResult.mk 1 "卷" demoVolRule "第1卷 开端" "第1卷") rfl (by decide) rfl⟩

/-- The pattern part of a rule line, as cut out by `_split_rule_line`. -/
def patternOf (line : String) : String :=
  match splitFirst ['=', '>'] (pyStrip line).toList with
  | some (left, _) => pyStrip left.asString
  | none => pyStrip line

/-- The template part of a rule line, as cut out by `_split_rule_line`. -/
def replOf (line : String) : String :=
  match splitFirst ['=', '>'] (pyStrip line).toList with
  | some (_, right) => pyStrip right.asString
  | none => "\\g<0>"


theorem splitRuleLine_of_nonblank (line : String)
    (h : (pyStrip line).isEmpty = false) :
    splitRuleLine (pyStrip line) = Except.ok (patternOf line, replOf line) := by
  unfold splitRuleLine
  rw [pyStrip_idem, if_neg (by simp [h])]
  unfold patternOf replOf
  cases hs : splitFirst ['=', '>'] (pyStrip line).toList with
  | none => rfl
  | some pr =>
      cases pr with
      | mk left right => rfl

theorem compileRule_ok_inv (cp : String → Except String Matcher) (line : String)
    (h : (pyStrip line).isEmpty = false) (r : CompiledRule)
    (hr : compileRule cp (pyStrip line) = Except.ok r) :
    ∃ mm, cp (patternOf line) = Except.ok mm := by
  unfold compileRule at hr
  rw [splitRuleLine_of_nonblank line h] at hr
  have hr2 : (match cp (patternOf line) with
      | Except.error e =>
          (Except.error (CompileError.patternError e) : Except CompileError CompiledRule)
      | Except.ok m =>
          Except.ok (CompiledRule.mk m (normalizeReplacement (replOf line))
            (pyStrip line))) = Except.ok r := hr
  cases hcp : cp (patternOf line) with
  | error e => rw [hcp] at hr2; exact absurd hr2 (by simp)
  | ok mm => exact ⟨mm, rfl⟩

theorem compileRule_error_inv (cp : String → Except String Matcher) (line : String)
    (h : (pyStrip line).isEmpty = false) (e : CompileError)
    (hr : compileRule cp (pyStrip line) = Except.error e) :
    ∃ msg, e = CompileError.patternError msg := by
  unfold compileRule at hr
  rw [splitRuleLine_of_nonblank line h] at hr
  have hr2 : (match cp (patternOf line) with
      | Except.error e =>
          (Except.error (CompileError.patternError e) : Except CompileError CompiledRule)
      | Except.ok m =>
          Except.ok (CompiledRule.mk m (normalizeReplacement (replOf line))
            (pyStrip line))) = Except.error e := hr
  cases hcp : cp (patternOf line) with
  | error msg =>
      rw [hcp] at hr2
      exact ⟨msg, by simpa using hr2.symm⟩
  | ok mm =>
      rw [hcp] at hr2
      exact absurd hr2 (by simp)

theorem compileLevelRules_ok_inv (cp : String → Except String Matcher) :
    ∀ (rules : List String) (rs : List CompiledRule),
      compileLevelRules cp rules = Except.ok rs →
      ∀ line ∈ rules, (pyStrip line).isEmpty = false →
        ∃ mm, cp (patternOf line) = Except.ok mm := by
  intro rules
  induction rules with
  | nil => intro rs _ line hmem; simp at hmem
  | cons l rest ih =>
      intro rs hok line hmem hline
      by_cases he : (pyStrip l).isEmpty
      · rw [show compileLevelRules cp (l :: rest) = compileLevelRules cp rest by
          simp [compileLevelRules, he]] at hok
        rcases List.mem_cons.mp hmem with rfl | hmem2
        · rw [he] at hline; exact absurd hline (by simp)
        · exact ih rs hok line hmem2 hline
      · have he' : ((pyStrip l).isEmpty) = false := by simpa using he
        rw [show compileLevelRules cp (l :: rest)
            = (match compileRule cp (pyStrip l) with
               | Except.error e => Except.error e
               | Except.ok r =>
                   match compileLevelRules cp rest with
                   | Except.error e => Except.error e
                   | Except.ok rs => Except.ok (r :: rs)) by
          simp [compileLevelRules, he']] at hok
        cases hcr : compileRule cp (pyStrip l) with
        | error e => rw [hcr] at hok; exact absurd hok (by simp)
        | ok r =>
            rw [hcr] at hok
            cases hrest : compileLevelRules cp rest with
            | error e => rw [hrest] at hok; exact absurd hok (by simp)
            | ok rs' =>
                rcases List.mem_cons.mp hmem with rfl | hmem2
                · exact compileRule_ok_inv cp line he' r hcr
                · exact ih rs' hrest line hmem2 hline

theorem compileLevelRules_error_inv (cp : String → Except String Matcher) :
    ∀ (rules : List String) (e : CompileError),
      compileLevelRules cp rules = Except.error e →
      ∃ msg, e = CompileError.patternError msg := by
  intro rules
  induction rules with
  | nil => intro e h; exact absurd h (by simp [compileLevelRules])
  | cons l rest ih =>
      intro e h
      by_cases he : (pyStrip l).isEmpty
      · rw [show compileLevelRules cp (l :: rest) = compileLevelRules cp rest by
          simp [compileLevelRules, he]] at h
        exact ih e h
      · have he' : ((pyStrip l).isEmpty) = false := by simpa using he
        rw [show compileLevelRules cp (l :: rest)
            = (match compileRule cp (pyStrip l) with
               | Except.error e => Except.error e
               | Except.ok r =>
                   match compileLevelRules cp rest with
                   | Except.error e => Except.error e
                   | Except.ok rs => Except.ok (r :: rs)) by
          simp [compileLevelRules, he']] at h
        cases hcr : compileRule cp (pyStrip l) with
        | error e' =>
            rw [hcr] at h
            have : e' = e := by simpa using h
            exact this ▸ compileRule_error_inv cp l he' e' hcr
        | ok r =>
            rw [hcr] at h
            cases hrest : compileLevelRules cp rest with
            | error e' =>
                rw [hrest] at h
                have : e' = e := by simpa using h
                exact this ▸ ih e' hrest
            | ok rs' => rw [hrest] at h; exact absurd h (by simp)

theorem compileRuleLevelsAux_ok_inv (cp : String → Except String Matcher) :
    ∀ (levels : List RuleLevel) (idx : Nat) (cls : List CompiledLevel),
      compileRuleLevelsAux cp idx levels = Except.ok cls →
      ∀ lvl ∈ levels, ∀ line ∈ lvl.rules, (pyStrip line).isEmpty = false →
        ∃ mm, cp (patternOf line) = Except.ok mm := by
  intro levels
  induction levels with
  | nil => intro idx cls _ lvl hmem; simp at hmem
  | cons level rest ih =>
      intro idx cls hok lvl hmem line hline hnb
      rw [show compileRuleLevelsAux cp idx (level :: rest)
          = (match compileLevelRules cp level.rules with
             | Except.error e => Except.error e
             | Except.ok rules =>
                 match compileRuleLevelsAux cp (idx + 1) rest with
                 | Except.error e => Except.error e
                 | Except.ok tail =>
                     if rules.isEmpty then Except.ok tail
                     else Except.ok (CompiledLevel.mk idx
                       (normalize_title level.name ("L" ++ toString idx)) rules :: tail))
          from rfl] at hok
      cases hcr : compileLevelRules cp level.rules with
      | error e => rw [hcr] at hok; exact absurd hok (by simp)
      | ok rules =>
          rw [hcr] at hok
          cases hrest : compileRuleLevelsAux cp (idx + 1) rest with
          | error e => rw [hrest] at hok; exact absurd hok (by simp)
          | ok tail =>
              rcases List.mem_cons.mp hmem with rfl | hmem2
              · exact compileLevelRules_ok_inv cp lvl.rules rules hcr line hline hnb
              · exact ih (idx + 1) tail hrest lvl hmem2 line hline hnb

theorem compileRuleLevelsAux_error_inv (cp : String → Except String Matcher) :
    ∀ (levels : List RuleLevel) (idx : Nat) (e : CompileError),
      compileRuleLevelsAux cp idx levels = Except.error e →
      ∃ msg, e = CompileError.patternError msg := by
  intro levels
  induction levels with
  | nil => intro idx e h; exact absurd h (by simp [compileRuleLevelsAux])
  | cons level rest ih =>
      intro idx e h
      rw [show compileRuleLevelsAux cp idx (level :: rest)
          = (match compileLevelRules cp level.rules with
             | Except.error e => Except.error e
             | Except.ok rules =>
                 match compileRuleLevelsAux cp (idx + 1) rest with
                 | Except.error e => Except.error e
                 | Except.ok tail =>
                     if rules.isEmpty then Except.ok tail
                     else Except.ok (CompiledLevel.mk idx
                       (normalize_title level.name ("L" ++ toString idx)) rules :: tail))
          from rfl] at h
      cases hcr : compileLevelRules cp level.rules with
      | error e' =>
          rw [hcr] at h
          have he : e' = e := by simpa using h
          exact he ▸ compileLevelRules_error_inv cp level.rules e' hcr
      | ok rules =>
          rw [hcr] at h
          cases hrest : compileRuleLevelsAux cp (idx + 1) rest with
          | error e' =>
              rw [hrest] at h
              have he : e' = e := by simpa using h
              exact he ▸ ih (idx + 1) e' hrest
          | ok tail =>
              rw [hrest] at h
              have h2 : (if rules.isEmpty then (Except.ok tail : Except CompileError (List CompiledLevel))
                  else Except.ok (CompiledLevel.mk idx
                    (normalize_title level.name ("L" ++ toString idx)) rules :: tail))
                  = Except.error e := h
              by_cases hre : rules.isEmpty
              · rw [if_pos hre] at h2; exact absurd h2 (by simp)
              · rw [if_neg hre] at h2; exact absurd h2 (by simp)

theorem compileLevelRules_all_blank (cp : String → Except String Matcher) :
    ∀ rules : List String, (∀ line ∈ rules, (pyStrip line).isEmpty = true) →
      compileLevelRules cp rules = Except.ok [] := by
  intro rules
  induction rules with
  | nil => intro _; rfl
  | cons l rest ih =>
      intro h
      have hl : (pyStrip l).isEmpty = true := h l (List.mem_cons_self l rest)
      rw [show compileLevelRules cp (l :: rest)
          = (if (pyStrip l).isEmpty then compileLevelRules cp rest
             else
               match compileRule cp (pyStrip l) with
               | Except.error e => Except.error e
               | Except.ok r =>
                   match compileLevelRules cp rest with
                   | Except.error e => Except.error e
                   | Except.ok rs => Except.ok (r :: rs)) from rfl]
      rw [if_pos hl]
      exact ih (fun line hmem => h line (List.mem_cons_of_mem _ hmem))

/-- Counterexample for C6: a level whose rule lines have zero non-blank
entries is not rejected with any error by compile_rule_levels — compilation
succeeds and the level is silently dropped from the output. -/
theorem compile_rule_levels_blank_level_cex :
    compile_rule_levels cpNever [RuleLevel.mk "X" ["", "   "]] = Except.ok [] := rfl

/-- C6 (amended): compilation propagates a PatternError for every level
sequence containing a malformed non-blank rule pattern; a level whose rule
lines contain zero non-blank entries is not rejected — it is silently
omitted from the compiled output (the rejection with an error message
happens in the UI controller before compilation is attempted). -/
theorem compile_rule_levels_errors :
    (∀ (cp : String → Except String Matcher) (levels : List RuleLevel)
       (lvl : RuleLevel) (line : String) (msg : String),
       lvl ∈ levels → line ∈ lvl.rules → (pyStrip line).isEmpty = false →
       cp (patternOf line) = Except.error msg →
       ∃ msg2, compile_rule_levels cp levels
         = Except.error (CompileError.patternError msg2))
  ∧ (∀ (cp : String → Except String Matcher) (idx : Nat) (lvl : RuleLevel)
       (rest : List RuleLevel),
       (∀ line ∈ lvl.rules, (pyStrip line).isEmpty = true) →
       compileRuleLevelsAux cp idx (lvl :: rest)
         = compileRuleLevelsAux cp (idx + 1) rest) := by
  constructor
  · intro cp levels lvl line msg hlvl hline hnb hbad
    cases h : compile_rule_levels cp levels with
    | ok cls =>
        obtain ⟨mm, hmm⟩ :=
          compileRuleLevelsAux_ok_inv cp levels 1 cls h lvl hlvl line hline hnb
        rw [hbad] at hmm
        exact absurd hmm (by simp)
    | error e =>
        obtain ⟨msg2, he⟩ := compileRuleLevelsAux_error_inv cp levels 1 e h
        exact ⟨msg2, by rw [he]⟩
  · intro cp idx lvl rest hblank
    rw [show compileRuleLevelsAux cp idx (lvl :: rest)
        = (match compileLevelRules cp lvl.rules with
           | Except.error e => Except.error e
           | Except.ok rules =>
               match compileRuleLevelsAux cp (idx + 1) rest with
               | Except.error e => Except.error e
               | Except.ok tail =>
                   if rules.isEmpty then Except.ok tail
                   else Except.ok (CompiledLevel.mk idx
                     (normalize_title lvl.name ("L" ++ toString idx)) rules :: tail))
        from rfl]
    rw [compileLevelRules_all_blank cp lvl.rules hblank]
    cases hrest : compileRuleLevelsAux cp (idx + 1) rest with
    | error e => rfl
    | ok tail => rfl

/-- A pattern compiler that rejects every pattern, standing for `re.compile`
on a malformed pattern such as `(`. -/
def cpFail : String → Except String Matcher := fun _ => Except.error "unbalanced"

/-- Witness for C6 (amended): a malformed pattern makes compilation fail
with a PatternError, and an all-blank level is dropped without error. -/
theorem compile_rule_levels_errors_witness :
    (∃ msg2, compile_rule_levels cpFail [RuleLevel.mk "X" ["("]]
        = Except.error (CompileError.patternError msg2))
  ∧ compileRuleLevelsAux cpNever 1 [RuleLevel.mk "X" ["", "   "]]
      = compileRuleLevelsAux cpNever 2 [] :=
  ⟨compile_rule_levels_errors.1 cpFail [RuleLevel.mk "X" ["("]]
      (RuleLevel.mk "X" ["("]) "(" "unbalanced" (by simp) (by simp) rfl rfl,
   compile_rule_levels_errors.2 cpNever 1 (RuleLevel.mk "X" ["", "   "]) []
      (by decide)⟩

theorem set_self_of_getElem? {α : Type} (l : List α) (i : Nat) (x : α)
    (h : l[i]? = some x) : l.set i x = l := by
  apply List.ext_getElem?
  intro n
  by_cases hn : n = i
  · subst hn
    rw [List.getElem?_set_self (List.getElem?_eq_some.mp h).1, h]
  · rw [List.getElem?_set_ne (fun he => hn he.symm)]

theorem map_set_set_eq {β : Type} (f : TocItem → β) (items : List TocItem)
    (i t : Nat) (a b a' b' : TocItem)
    (ha : items[i]? = some a) (hb : items[t]? = some b)
    (hfa : f a' = f a) (hfb : f b' = f b) (hne : i ≠ t) :
    ((items.set i a').set t b').map f = items.map f := by
  rw [List.map_set, List.map_set, hfa, hfb]
  have houter : ((items.map f).set i (f a))[t]? = some (f b) := by
    rw [List.getElem?_set_ne hne, List.getElem?_map, hb]
    rfl
  rw [set_self_of_getElem? _ _ _ houter]
  rw [set_self_of_getElem? _ _ _ (by rw [List.getElem?_map, ha]; rfl)]

/-- C9: swapping two adjacent same-level items exchanges only their titles
(positions, ranges, levels and level names, and every other item are
unchanged, and the operation reports success); an out-of-bounds neighbour
or a level mismatch makes the operation a failing no-op. -/
theorem swap_selected_title_spec :
    (∀ (items : List TocItem) (idx direction : Int),
       (idx < 0 ∨ idx + direction < 0 ∨ (items.length : Int) ≤ idx + direction) →
       swap_selected_title items idx direction = some (items, false))
  ∧ (∀ (items : List TocItem) (idx direction : Int) (a b : TocItem),
       ¬(idx < 0 ∨ idx + direction < 0 ∨ (items.length : Int) ≤ idx + direction) →
       items[idx.toNat]? = some a → items[(idx + direction).toNat]? = some b →
       a.level ≠ b.level →
       swap_selected_title items idx direction = some (items, false))
  ∧ (∀ (items : List TocItem) (idx direction : Int) (a b : TocItem),
       ¬(idx < 0 ∨ idx + direction < 0 ∨ (items.length : Int) ≤ idx + direction) →
       items[idx.toNat]? = some a → items[(idx + direction).toNat]? = some b →
       a.level = b.level → (direction = 1 ∨ direction = -1) →
       ∃ l', swap_selected_title items idx direction = some (l', true)
         ∧ l'.length = items.length
         ∧ l'[idx.toNat]? = some { a with title := b.title }
         ∧ l'[(idx + direction).toNat]? = some { b with title := a.title }
         ∧ (∀ j, j ≠ idx.toNat → j ≠ (idx + direction).toNat → l'[j]? = items[j]?)
         ∧ l'.map TocItem.start_line = items.map TocItem.start_line
         ∧ l'.map TocItem.end_line = items.map TocItem.end_line
         ∧ l'.map TocItem.level = items.map TocItem.level
         ∧ l'.map TocItem.level_name = items.map TocItem.level_name) := by
  refine ⟨?_, ?_, ?_⟩
  · intro items idx direction h
    simp only [swap_selected_title]
    rw [if_pos h]
  · intro items idx direction a b h ha hb hlev
    simp only [swap_selected_title]
    rw [if_neg h, ha, hb]
    simp [hlev]
  · intro items idx direction a b h ha hb hlev hdir
    have hilen : idx.toNat < items.length := (List.getElem?_eq_some.mp ha).1
    have htlen : (idx + direction).toNat < items.length := (List.getElem?_eq_some.mp hb).1
    have hne : idx.toNat ≠ (idx + direction).toNat := by
      push_neg at h
      rcases hdir with rfl | rfl <;> omega
    refine ⟨(items.set idx.toNat { a with title := b.title }).set
        (idx + direction).toNat { b with title := a.title },
        ?_, ?_, ?_, ?_, ?_, ?_, ?_, ?_, ?_⟩
    · simp only [swap_selected_title]
      rw [if_neg h, ha, hb]
      simp [hlev]
    · simp [List.length_set]
    · rw [List.getElem?_set_ne (fun he => hne he.symm),
        List.getElem?_set_self hilen]
    · rw [List.getElem?_set_self]
      rw [List.length_set]
      exact htlen
    · intro j hj1 hj2
      rw [List.getElem?_set_ne (fun he => hj2 he.symm),
        List.getElem?_set_ne (fun he => hj1 he.symm)]
    · exact map_set_set_eq _ items _ _ a b _ _ ha hb rfl rfl hne
    · exact map_set_set_eq _ items _ _ a b _ _ ha hb rfl rfl hne
    · exact map_set_set_eq _ items _ _ a b _ _ ha hb rfl rfl hne
    · exact map_set_set_eq _ items _ _ a b _ _ ha hb rfl rfl hne

/-- Two adjacent same-level items. -/
def c9Items : List TocItem := [TocItem.mk "A" 0 4 1 "卷", TocItem.mk "B" 5 9 1 "卷"]

/-- Two adjacent items of different levels. -/
def c9Mixed : List TocItem := [TocItem.mk "A" 0 4 1 "卷", TocItem.mk "B" 5 9 2 "章"]

/-- Witness for C9: the out-of-bounds no-op, the level-mismatch no-op and
the successful title swap, at concrete collections. -/
theorem swap_selected_title_spec_witness :
    swap_selected_title c9Items 1 1 = some (c9Items, false)
  ∧ swap_selected_title c9Mixed 0 1 = some (c9Mixed, false)
  ∧ (∃ l', swap_selected_title c9Items 0 1 = some (l', true)
      ∧ l'.length = c9Items.length
      ∧ l'[(0 : Int).toNat]? = some (TocItem.mk "B" 0 4 1 "卷")
      ∧ l'[((0 : Int) + 1).toNat]? = some (TocItem.mk "A" 5 9 1 "卷")
      ∧ (∀ j, j ≠ (0 : Int).toNat → j ≠ ((0 : Int) + 1).toNat → l'[j]? = c9Items[j]?)
      ∧ l'.map TocItem.start_line = c9Items.map TocItem.start_line
      ∧ l'.map TocItem.end_line = c9Items.map TocItem.end_line
      ∧ l'.map TocItem.level = c9Items.map TocItem.level
      ∧ l'.map TocItem.level_name = c9Items.map TocItem.level_name) :=
  ⟨swap_selected_title_spec.1 c9Items 1 1 (by decide),
   swap_selected_title_spec.2.1 c9Mixed 0 1 (TocItem.mk "A" 0 4 1 "卷")
     (TocItem.mk "B" 5 9 2 "章") (by decide) rfl rfl (by decide),
   swap_selected_title_spec.2.2 c9Items 0 1 (TocItem.mk "A" 0 4 1 "卷")
     (TocItem.mk "B" 5 9 1 "卷") (by decide) rfl rfl rfl (Or.inl rfl)⟩

theorem min?_perm_nat : ∀ {l₁ l₂ : List Nat}, l₁.Perm l₂ → l₁.min? = l₂.min? := by
  intro l₁ l₂ h
  have hiff : ∀ (xs : List Nat) (a : Nat),
      xs.min? = some a ↔ a ∈ xs ∧ ∀ b ∈ xs, a ≤ b := by
    intro xs a
    exact List.min?_eq_some_iff (fun a => Nat.le_refl a) (fun a b => min_choice a b)
      (fun a b c => le_min_iff)
  cases hm : l₁.min? with
  | none =>
      have h1 : l₁ = [] := List.min?_eq_none_iff.mp hm
      subst h1
      rw [h.symm.eq_nil]
      rfl
  | some a =>
      obtain ⟨hmem, hle⟩ := (hiff l₁ a).mp hm
      exact ((hiff l₂ a).mpr ⟨h.mem_iff.mp hmem,
        fun b hb => hle b (h.mem_iff.mpr hb)⟩).symm

theorem nextGreaterStart_perm {items₁ items₂ : List TocItem}
    (h : items₁.Perm items₂) (s : Nat) :
    nextGreaterStart items₁ s = nextGreaterStart items₂ s :=
  min?_perm_nat ((h.map _).filter _)

theorem recompute_ranges_eq (items : List TocItem) (total_lines : Nat) :
    recompute_ranges items total_lines
      = (sortItems items).map (fun item =>
          let e := match nextGreaterStart items item.start_line with
            | some nxt => nxt - 1
            | none => total_lines - 1
          { item with end_line := if e < item.start_line then item.start_line else e }) := by
  unfold recompute_ranges
  by_cases hemp : items.isEmpty
  · rw [if_pos hemp]
    have h1 : items = [] := by
      cases items with
      | nil => rfl
      | cons a as => simp at hemp
    subst h1
    rfl
  · rw [if_neg hemp]
    apply List.map_congr_left
    intro x _
    rw [nextGreaterStart_perm (sortItems_perm items) x.start_line]

/-- The fields of a TOC item other than the derived end line. -/
def stripEnd (it : TocItem) : String × Nat × Nat × String :=
  (it.title, it.start_line, it.level, it.level_name)

/-- C10: recompute_ranges changes nothing but end lines — the output is the
input items sorted by `(start_line, level)` with every title, start line,
level and level name kept identical. -/
theorem recompute_ranges_frame (items : List TocItem) (total_lines : Nat) :
    (recompute_ranges items total_lines).map stripEnd = (sortItems items).map stripEnd
  ∧ ((recompute_ranges items total_lines).map stripEnd).Perm (items.map stripEnd)
  ∧ (recompute_ranges items total_lines).Pairwise tocKeyLE := by
  have he := recompute_ranges_eq items total_lines
  have h1 : (recompute_ranges items total_lines).map stripEnd
      = (sortItems items).map stripEnd := by
    rw [he, List.map_map]
    exact List.map_congr_left (fun x _ => rfl)
  refine ⟨h1, ?_, ?_⟩
  · rw [h1]
    exact (sortItems_perm items).map stripEnd
  · rw [he]
    rw [List.pairwise_map]
    exact List.Pairwise.imp (fun h => h) (sortItems_sorted items)

/-- C1 (amended): recompute_ranges returns the items sorted by
`(start_line, level)`; each end line is one before the least start line of
any item strictly beyond its own (or the last corpus line when none),
clamped to at least its start line; hence every item satisfies
`start_line ≤ end_line`, and — provided every start line lies inside the
corpus — the item with the greatest start line ends at `total_lines - 1`. -/
theorem recompute_ranges_spec (items : List TocItem) (total_lines : Nat)
    (_htotal : 1 ≤ total_lines) :
    (recompute_ranges items total_lines).Pairwise tocKeyLE
  ∧ (∀ it ∈ recompute_ranges items total_lines,
      it.end_line = match nextGreaterStart items it.start_line with
        | some nxt => if nxt - 1 < it.start_line then it.start_line else nxt - 1
        | none => if total_lines - 1 < it.start_line then it.start_line
            else total_lines - 1)
  ∧ (∀ it ∈ recompute_ranges items total_lines, it.start_line ≤ it.end_line)
  ∧ ((∀ it ∈ items, it.start_line ≤ total_lines - 1) →
      ∀ it ∈ recompute_ranges items total_lines,
        (∀ j ∈ recompute_ranges items total_lines, j.start_line ≤ it.start_line) →
        it.end_line = total_lines - 1) := by
  have he := recompute_ranges_eq items total_lines
  refine ⟨?_, ?_, ?_, ?_⟩
  · rw [he, List.pairwise_map]
    exact List.Pairwise.imp (fun h => h) (sortItems_sorted items)
  · intro it hit
    rw [he] at hit
    obtain ⟨x, _, rfl⟩ := List.mem_map.mp hit
    show (if (match nextGreaterStart items x.start_line with
          | some nxt => nxt - 1 | none => total_lines - 1) < x.start_line
        then x.start_line
        else (match nextGreaterStart items x.start_line with
          | some nxt => nxt - 1 | none => total_lines - 1))
      = match nextGreaterStart items x.start_line with
        | some nxt => if nxt - 1 < x.start_line then x.start_line else nxt - 1
        | none => if total_lines - 1 < x.start_line then x.start_line
            else total_lines - 1
    cases nextGreaterStart items x.start_line with
    | none => rfl
    | some nxt => rfl
  · intro it hit
    rw [he] at hit
    obtain ⟨x, _, rfl⟩ := List.mem_map.mp hit
    show x.start_line ≤ if (match nextGreaterStart items x.start_line with
        | some nxt => nxt - 1 | none => total_lines - 1) < x.start_line
      then x.start_line
      else (match nextGreaterStart items x.start_line with
        | some nxt => nxt - 1 | none => total_lines - 1)
    by_cases hc : (match nextGreaterStart items x.start_line with
        | some nxt => nxt - 1 | none => total_lines - 1) < x.start_line
    · rw [if_pos hc]
    · rw [if_neg hc]
      omega
  · intro hbound it hit hmax
    rw [he] at hit
    obtain ⟨x, hx, rfl⟩ := List.mem_map.mp hit
    have hxmem : x ∈ items := (sortItems_perm items).mem_iff.mp hx
    have hnone : nextGreaterStart items x.start_line = none := by
      unfold nextGreaterStart
      rw [List.min?_eq_none_iff]
      rw [List.filter_eq_nil_iff]
      intro s hs
      obtain ⟨j, hj, rfl⟩ := List.mem_map.mp hs
      have hjsorted : j ∈ sortItems items := (sortItems_perm items).mem_iff.mpr hj
      have himg : (fun item =>
          let e := match nextGreaterStart items item.start_line with
            | some nxt => nxt - 1
            | none => total_lines - 1
          { item with end_line := if e < item.start_line then item.start_line else e }) j
          ∈ recompute_ranges items total_lines := by
        rw [he]
        exact List.mem_map_of_mem _ hjsorted
      have hle0 := hmax _ himg
      have hle : j.start_line ≤ x.start_line := hle0
      simp only [decide_eq_true_eq]
      omega
    show (if (match nextGreaterStart items x.start_line with
          | some nxt => nxt - 1 | none => total_lines - 1) < x.start_line
        then x.start_line
        else (match nextGreaterStart items x.start_line with
          | some nxt => nxt - 1 | none => total_lines - 1))
      = total_lines - 1
    rw [hnone]
    have hxb : x.start_line ≤ total_lines - 1 := hbound x hxmem
    show (if total_lines - 1 < x.start_line then x.start_line else total_lines - 1)
      = total_lines - 1
    rw [if_neg (by omega)]

/-- Counterexample for C1: over a one-line corpus, an item whose start line
lies beyond the corpus is clamped to `end_line = start_line = 5`, so the
item with the greatest start line does not get
`end_line = total_lines - 1 = 0`. -/
theorem recompute_ranges_last_cex :
    recompute_ranges [TocItem.mk "t" 5 0 1 "n"] 1 = [TocItem.mk "t" 5 5 1 "n"]
  ∧ (TocItem.mk "t" 5 5 1 "n").end_line ≠ 1 - 1 :=
  ⟨rfl, by decide⟩

/-- Two items over a 20-line corpus. -/
def c1ex : List TocItem :=
  [TocItem.mk "b" 5 5 2 "章", TocItem.mk "a" 0 0 1 "卷"]

/-- Witness for C1 (amended): the range computation at a concrete two-item
collection over a 20-line corpus. -/
theorem recompute_ranges_spec_witness :
    1 ≤ 20
  ∧ ((recompute_ranges c1ex 20).Pairwise tocKeyLE
    ∧ (∀ it ∈ recompute_ranges c1ex 20,
        it.end_line = match nextGreaterStart c1ex it.start_line with
          | some nxt => if nxt - 1 < it.start_line then it.start_line else nxt - 1
          | none => if 20 - 1 < it.start_line then it.start_line else 20 - 1)
    ∧ (∀ it ∈ recompute_ranges c1ex 20, it.start_line ≤ it.end_line)
    ∧ ((∀ it ∈ c1ex, it.start_line ≤ 20 - 1) →
        ∀ it ∈ recompute_ranges c1ex 20,
          (∀ j ∈ recompute_ranges c1ex 20, j.start_line ≤ it.start_line) →
          it.end_line = 20 - 1)) :=
  ⟨by decide, recompute_ranges_spec c1ex 20 (by decide)⟩

theorem detectItemsAux_nil (compiled : List CompiledLevel) :
    ∀ (lines : List String) (idx : Nat),
      (∀ line ∈ lines, (check_line_for_toc line compiled).accepted = false) →
      detectItemsAux compiled idx lines = [] := by
  intro lines
  induction lines with
  | nil => intro idx _; rfl
  | cons line rest ih =>
      intro idx h
      have hline : (check_line_for_toc line compiled).accepted = false :=
        h line (List.mem_cons_self line rest)
      rw [show detectItemsAux compiled idx (line :: rest)
          = (if (check_line_for_toc line compiled).accepted then
               match (check_line_for_toc line compiled).matched with
               | some m =>
                   TocItem.mk m.rendered_title idx idx m.level_no m.level_name
                     :: detectItemsAux compiled (idx + 1) rest
               | none => detectItemsAux compiled (idx + 1) rest
             else detectItemsAux compiled (idx + 1) rest) from rfl]
      rw [hline]
      simp only [Bool.false_eq_true, if_false]
      exact ih (idx + 1) (fun l hl => h l (List.mem_cons_of_mem _ hl))

/-- C8: when the corpus is non-empty, the configured levels compile to a
non-empty level list, and no corpus line is accepted by classification,
parse_toc_items synthesizes exactly one placeholder item `正文` spanning
lines 0 to `lines.length - 1` at the deepest compiled level. -/
theorem parse_toc_items_fallback (cp : String → Except String Matcher)
    (lines : List String) (rule_levels : Option (List RuleLevel))
    (compiled : List CompiledLevel)
    (hne : lines.isEmpty = false)
    (hc : compile_rule_levels cp (resolveLevels rule_levels) = Except.ok compiled)
    (hcne : compiled.isEmpty = false)
    (hnoacc : ∀ line ∈ lines, (check_line_for_toc line compiled).accepted = false) :
    parse_toc_items cp lines rule_levels
      = Except.ok [TocItem.mk "正文" 0 (lines.length - 1)
          (compiled.getLastD (CompiledLevel.mk 0 "" [])).level_no
          (compiled.getLastD (CompiledLevel.mk 0 "" [])).level_name] := by
  unfold parse_toc_items
  rw [if_neg (by simp [hne])]
  show (match compile_rule_levels cp (resolveLevels rule_levels) with
    | Except.error e => Except.error e
    | Except.ok compiled_levels =>
        if compiled_levels.isEmpty then
          Except.ok [TocItem.mk "正文" 0 (lines.length - 1) 1 "章节"]
        else
          if (detectItemsAux compiled_levels 0 lines).isEmpty then
            Except.ok [TocItem.mk "正文" 0 (lines.length - 1)
              (compiled_levels.getLastD (CompiledLevel.mk 0 "" [])).level_no
              (compiled_levels.getLastD (CompiledLevel.mk 0 "" [])).level_name]
          else Except.ok (recompute_ranges (detectItemsAux compiled_levels 0 lines)
            lines.length))
    = _
  rw [hc]
  show (if compiled.isEmpty then
      Except.ok [TocItem.mk "正文" 0 (lines.length - 1) 1 "章节"]
    else
      if (detectItemsAux compiled 0 lines).isEmpty then
        Except.ok [TocItem.mk "正文" 0 (lines.length - 1)
          (compiled.getLastD (CompiledLevel.mk 0 "" [])).level_no
          (compiled.getLastD (CompiledLevel.mk 0 "" [])).level_name]
      else Except.ok (recompute_ranges (detectItemsAux compiled 0 lines) lines.length))
    = _
  rw [if_neg (by simp [hcne])]
  rw [detectItemsAux_nil compiled lines 0 hnoacc]
  rfl

/-- Two rule levels whose rules compile to never-matching matchers. -/
def c8Levels : List RuleLevel := [RuleLevel.mk "卷" ["a"], RuleLevel.mk "章" ["b"]]

/-- Witness for C8: a two-line corpus where no rule matches yields the
single full-span placeholder at the deepest level. -/
theorem parse_toc_items_fallback_witness :
    parse_toc_items cpNever ["x", "y"] (some c8Levels)
      = Except.ok [TocItem.mk "正文" 0 (["x", "y"].length - 1)
          (((CompiledLevel.mk 1 "卷" [CompiledRule.mk matcherNone "\\g<0>" "a"]) ::
            [CompiledLevel.mk 2 "章" [CompiledRule.mk matcherNone "\\g<0>" "b"]]).getLastD
              (CompiledLevel.mk 0 "" [])).level_no
          (((CompiledLevel.mk 1 "卷" [CompiledRule.mk matcherNone "\\g<0>" "a"]) ::
            [CompiledLevel.mk 2 "章" [CompiledRule.mk matcherNone "\\g<0>" "b"]]).getLastD
              (CompiledLevel.mk 0 "" [])).level_name] :=
  parse_toc_items_fallback cpNever ["x", "y"] (some c8Levels)
    ((CompiledLevel.mk 1 "卷" [CompiledRule.mk matcherNone "\\g<0>" "a"]) ::
      [CompiledLevel.mk 2 "章" [CompiledRule.mk matcherNone "\\g<0>" "b"]])
    rfl rfl rfl (by intro line hl; fin_cases hl <;> rfl)

theorem takeWhile_takeWhile_stronger {α : Type} {p q : α → Bool}
    (himp : ∀ a, p a = true → q a = true) :
    ∀ l : List α, (l.takeWhile q).takeWhile p = l.takeWhile p := by
  intro l
  induction l with
  | nil => rfl
  | cons a l ih =>
      by_cases hq : q a
      · rw [List.takeWhile_cons, if_pos hq, List.takeWhile_cons]
        by_cases hp : p a
        · rw [if_pos hp, List.takeWhile_cons, if_pos hp, ih]
        · rw [if_neg hp, List.takeWhile_cons, if_neg hp]
      · have hp : ¬ p a = true := fun hpa => hq (himp a hpa)
        rw [List.takeWhile_cons, if_neg hq, List.takeWhile_cons, if_neg hp]
        rfl

theorem dropWhile_dropWhile_weaker {α : Type} {p q : α → Bool}
    (himp : ∀ a, p a = true → q a = true) :
    ∀ l : List α, (l.dropWhile p).dropWhile q = l.dropWhile q := by
  intro l
  induction l with
  | nil => rfl
  | cons a l ih =>
      by_cases hp : p a
      · rw [List.dropWhile_cons, if_pos hp, ih, List.dropWhile_cons,
          if_pos (himp a hp)]
      · rw [List.dropWhile_cons, if_neg hp]

theorem takeWhile_dropWhile_comm {α : Type} {p q : α → Bool}
    (himp : ∀ a, p a = true → q a = true) :
    ∀ l : List α, (l.takeWhile q).dropWhile p = (l.dropWhile p).takeWhile q := by
  intro l
  induction l with
  | nil => rfl
  | cons a l ih =>
      by_cases hp : p a
      · rw [List.takeWhile_cons, if_pos (himp a hp), List.dropWhile_cons,
          if_pos hp, List.dropWhile_cons, if_pos hp, ih]
      · by_cases hq : q a
        · rw [List.takeWhile_cons, if_pos hq, List.dropWhile_cons, if_neg hp,
            List.dropWhile_cons, if_neg hp, List.takeWhile_cons, if_pos hq]
        · rw [List.takeWhile_cons, if_neg hq, List.dropWhile_cons, if_neg hp,
            List.takeWhile_cons, if_neg hq]
          rfl

theorem attachNode_nil (n : HNode) (roots : List HNode) :
    attachNode n [] roots = ([], roots ++ [n]) := rfl

theorem attachNode_cons (n : HNode) (pt : TocItem) (pcs : List HNode)
    (rest : List (TocItem × List HNode)) (roots : List HNode) :
    attachNode n ((pt, pcs) :: rest) roots = ((pt, pcs ++ [n]) :: rest, roots) := rfl

theorem popCarry_attach (lvl : Nat) (pending : HNode) :
    ∀ (st : List (TocItem × List HNode)) (roots : List HNode),
    popCarry lvl pending st roots
      = popWhileGE lvl (attachNode pending st roots).1 (attachNode pending st roots).2 := by
  intro st roots
  cases st with
  | nil => rfl
  | cons top rest => cases top with | mk pt pcs => rfl

theorem popWhileGE_pop {lvl : Nat} {t : TocItem} (h : lvl ≤ t.level)
    (cs : List HNode) (st : List (TocItem × List HNode)) (roots : List HNode) :
    popWhileGE lvl ((t, cs) :: st) roots
      = popWhileGE lvl (attachNode (HNode.node t cs) st roots).1
          (attachNode (HNode.node t cs) st roots).2 := by
  rw [show popWhileGE lvl ((t, cs) :: st) roots
      = if lvl ≤ t.level then popCarry lvl (HNode.node t cs) st roots
        else ((t, cs) :: st, roots) from rfl]
  rw [if_pos h, popCarry_attach]

theorem popWhileGE_stop {lvl : Nat} {t : TocItem} (h : ¬ lvl ≤ t.level)
    (cs : List HNode) (st : List (TocItem × List HNode)) (roots : List HNode) :
    popWhileGE lvl ((t, cs) :: st) roots = ((t, cs) :: st, roots) := by
  rw [show popWhileGE lvl ((t, cs) :: st) roots
      = if lvl ≤ t.level then popCarry lvl (HNode.node t cs) st roots
        else ((t, cs) :: st, roots) from rfl]
  rw [if_neg h]

theorem flushCarry_attach (pending : HNode) :
    ∀ (st : List (TocItem × List HNode)) (roots : List HNode),
    flushCarry pending st roots
      = flushStack (attachNode pending st roots).1 (attachNode pending st roots).2 := by
  intro st roots
  cases st with
  | nil => rfl
  | cons top rest => cases top with | mk pt pcs => rfl

theorem flushStack_cons (t : TocItem) (cs : List HNode)
    (st : List (TocItem × List HNode)) (roots : List HNode) :
    flushStack ((t, cs) :: st) roots
      = flushStack (attachNode (HNode.node t cs) st roots).1
          (attachNode (HNode.node t cs) st roots).2 := by
  rw [show flushStack ((t, cs) :: st) roots
      = flushCarry (HNode.node t cs) st roots from rfl]
  rw [flushCarry_attach]

theorem buildAux_cons_stack :
    ∀ (n : Nat) (l : List TocItem), l.length ≤ n →
    ∀ (t : TocItem) (cs : List HNode) (st : List (TocItem × List HNode))
      (roots : List HNode),
    buildAux l ((t, cs) :: st) roots
      = buildAux (l.dropWhile (fun y => decide (t.level < y.level)))
          (attachNode (HNode.node t
            (cs ++ forestSpec (l.takeWhile (fun y => decide (t.level < y.level)))))
            st roots).1
          (attachNode (HNode.node t
            (cs ++ forestSpec (l.takeWhile (fun y => decide (t.level < y.level)))))
            st roots).2 := by
  intro n
  induction n with
  | zero =>
      intro l hl t cs st roots
      have hnil : l = [] := List.length_eq_zero.mp (Nat.le_zero.mp hl)
      subst hnil
      rw [show forestSpec (List.takeWhile (fun y => decide (t.level < y.level)) [])
          = [] from by simp [forestSpec]]
      rw [List.append_nil]
      exact flushStack_cons t cs st roots
  | succ n ih =>
      intro l hl t cs st roots
      cases l with
      | nil =>
          rw [show forestSpec (List.takeWhile (fun y => decide (t.level < y.level)) [])
              = [] from by simp [forestSpec]]
          rw [List.append_nil]
          exact flushStack_cons t cs st roots
      | cons x xs =>
          have hlen : xs.length ≤ n := by
            simp only [List.length_cons] at hl
            omega
          have hstep : buildAux (x :: xs) ((t, cs) :: st) roots
              = buildAux xs ((x, []) :: (popWhileGE x.level ((t, cs) :: st) roots).1)
                  (popWhileGE x.level ((t, cs) :: st) roots).2 := rfl
          by_cases hlt : t.level < x.level
          · have himp : ∀ y : TocItem,
                decide (x.level < y.level) = true → decide (t.level < y.level) = true := by
              intro y hy
              simp only [decide_eq_true_eq] at hy ⊢
              omega
            rw [hstep, popWhileGE_stop (by omega) cs st roots]
            show buildAux xs ((x, []) :: (t, cs) :: st) roots = _
            rw [ih xs hlen x [] ((t, cs) :: st) roots]
            rw [attachNode_cons]
            show buildAux (xs.dropWhile fun y => decide (x.level < y.level))
                ((t, cs ++ [HNode.node x ([] ++ forestSpec
                  (xs.takeWhile fun y => decide (x.level < y.level)))]) :: st) roots = _
            rw [List.nil_append]
            rw [ih (xs.dropWhile fun y => decide (x.level < y.level))
              (Nat.le_trans (List.Sublist.length_le (List.dropWhile_sublist _)) hlen)
              t (cs ++ [HNode.node x (forestSpec
                (xs.takeWhile fun y => decide (x.level < y.level)))]) st roots]
            have e1 : (x :: xs).dropWhile (fun y => decide (t.level < y.level))
                = ((xs.dropWhile fun y => decide (x.level < y.level)).dropWhile
                    (fun y => decide (t.level < y.level))) := by
              rw [List.dropWhile_cons, if_pos (by simpa using hlt)]
              rw [dropWhile_dropWhile_weaker himp]
            have e2 : cs ++ forestSpec ((x :: xs).takeWhile
                  (fun y => decide (t.level < y.level)))
                = (cs ++ [HNode.node x (forestSpec
                    (xs.takeWhile fun y => decide (x.level < y.level)))])
                  ++ forestSpec ((xs.dropWhile fun y => decide (x.level < y.level)).takeWhile
                      (fun y => decide (t.level < y.level))) := by
              rw [List.takeWhile_cons, if_pos (by simpa using hlt)]
              rw [show forestSpec (x :: xs.takeWhile (fun y => decide (t.level < y.level)))
                  = HNode.node x (forestSpec
                      ((xs.takeWhile (fun y => decide (t.level < y.level))).takeWhile
                        (fun y => decide (x.level < y.level))))
                    :: forestSpec
                      ((xs.takeWhile (fun y => decide (t.level < y.level))).dropWhile
                        (fun y => decide (x.level < y.level))) from by
                simp [forestSpec]]
              rw [takeWhile_takeWhile_stronger himp, takeWhile_dropWhile_comm himp]
              rw [List.append_cons, List.append_assoc]
            rw [e1, e2]
          · rw [hstep, popWhileGE_pop (by omega) cs st roots]
            have e3 : (x :: xs).takeWhile (fun y => decide (t.level < y.level)) = [] := by
              rw [List.takeWhile_cons, if_neg (by simpa using hlt)]
            have e4 : (x :: xs).dropWhile (fun y => decide (t.level < y.level))
                = x :: xs := by
              rw [List.dropWhile_cons, if_neg (by simpa using hlt)]
            rw [e3, e4, show forestSpec ([] : List TocItem) = [] from by simp [forestSpec]]
            rw [List.append_nil]
            rfl

theorem buildAux_nil_stack :
    ∀ (n : Nat) (l : List TocItem), l.length ≤ n → ∀ roots : List HNode,
    buildAux l [] roots = roots ++ forestSpec l := by
  intro n
  induction n with
  | zero =>
      intro l hl roots
      have hnil : l = [] := List.length_eq_zero.mp (Nat.le_zero.mp hl)
      subst hnil
      rw [show forestSpec ([] : List TocItem) = [] from by simp [forestSpec]]
      rw [List.append_nil]
      rfl
  | succ n ih =>
      intro l hl roots
      cases l with
      | nil =>
          rw [show forestSpec ([] : List TocItem) = [] from by simp [forestSpec]]
          rw [List.append_nil]
          rfl
      | cons x xs =>
          have hlen : xs.length ≤ n := by
            simp only [List.length_cons] at hl
            omega
          show buildAux xs [(x, [])] roots = _
          rw [buildAux_cons_stack xs.length xs (Nat.le_refl _) x [] [] roots]
          rw [attachNode_nil]
          show buildAux (xs.dropWhile fun y => decide (x.level < y.level)) []
              (roots ++ [HNode.node x ([] ++ forestSpec
                (xs.takeWhile fun y => decide (x.level < y.level)))]) = _
          rw [List.nil_append]
          rw [ih (xs.dropWhile fun y => decide (x.level < y.level))
            (Nat.le_trans (List.Sublist.length_le (List.dropWhile_sublist _)) hlen)]
          rw [show forestSpec (x :: xs)
              = HNode.node x (forestSpec (xs.takeWhile fun y => decide (x.level < y.level)))
                :: forestSpec (xs.dropWhile fun y => decide (x.level < y.level)) from by
            simp [forestSpec]]
          simp [List.append_assoc]

/-- The stack algorithm agrees with the span-based forest specification. -/
theorem build_hierarchy_eq_forestSpec (items : List TocItem) :
    build_hierarchy items = forestSpec (sortItems items) := by
  unfold build_hierarchy
  have h := buildAux_nil_stack (sortItems items).length (sortItems items)
    (Nat.le_refl _) []
  simpa using h

theorem parentSpecAux_append (b : List TocItem) :
    ∀ (a : List TocItem) (pre : List TocItem),
    parentSpecAux pre (a ++ b) = parentSpecAux pre a ++ parentSpecAux (pre ++ a) b := by
  intro a
  induction a with
  | nil => intro pre; simp [parentSpecAux]
  | cons x xs ih =>
      intro pre
      show (nearestSmaller pre x.level, x) :: parentSpecAux (pre ++ [x]) (xs ++ b) = _
      rw [ih (pre ++ [x])]
      show _ = (nearestSmaller pre x.level, x)
        :: (parentSpecAux (pre ++ [x]) xs ++ parentSpecAux (pre ++ x :: xs) b)
      simp [List.append_assoc]

theorem flattenForest_append (p : Option TocItem) :
    ∀ (as bs : List HNode),
    flattenForest p (as ++ bs) = flattenForest p as ++ flattenForest p bs := by
  intro as
  induction as with
  | nil => intro bs; simp [flattenForest]
  | cons nd ns ih =>
      intro bs
      cases nd with
      | node it cs =>
          simp only [List.cons_append]
          rw [show flattenForest p (HNode.node it cs :: (ns ++ bs))
              = (p, it) :: (flattenForest (some it) cs ++ flattenForest p (ns ++ bs))
              from by simp [flattenForest]]
          rw [show flattenForest p (HNode.node it cs :: ns)
              = (p, it) :: (flattenForest (some it) cs ++ flattenForest p ns)
              from by simp [flattenForest]]
          rw [ih bs]
          simp [List.append_assoc]

theorem flattenForest_parentSpec :
    ∀ (n : Nat) (l : List TocItem), l.length ≤ n →
    ∀ (pre : List TocItem) (p : Option TocItem),
    (∀ (l1 : List TocItem) (y : TocItem) (l2 : List TocItem),
      l = l1 ++ y :: l2 → l1.filter (fun z => decide (z.level < y.level)) = [] →
      nearestSmaller pre y.level = p) →
    flattenForest p (forestSpec l) = parentSpecAux pre l := by
  intro n
  induction n with
  | zero =>
      intro l hl pre p _
      have hnil : l = [] := List.length_eq_zero.mp (Nat.le_zero.mp hl)
      subst hnil
      simp [forestSpec, flattenForest, parentSpecAux]
  | succ n ih =>
      intro l hl pre p hyp
      cases l with
      | nil => simp [forestSpec, flattenForest, parentSpecAux]
      | cons x xs =>
          have hlen : xs.length ≤ n := by
            simp only [List.length_cons] at hl
            omega
          rw [show forestSpec (x :: xs)
              = HNode.node x (forestSpec (xs.takeWhile fun y => decide (x.level < y.level)))
                :: forestSpec (xs.dropWhile fun y => decide (x.level < y.level)) from by
            simp [forestSpec]]
          rw [show flattenForest p
              (HNode.node x (forestSpec (xs.takeWhile fun y => decide (x.level < y.level)))
                :: forestSpec (xs.dropWhile fun y => decide (x.level < y.level)))
              = (p, x) :: (flattenForest (some x)
                  (forestSpec (xs.takeWhile fun y => decide (x.level < y.level)))
                ++ flattenForest p
                  (forestSpec (xs.dropWhile fun y => decide (x.level < y.level)))) from by
            simp [flattenForest]]
          rw [show parentSpecAux pre (x :: xs)
              = (nearestSmaller pre x.level, x) :: parentSpecAux (pre ++ [x]) xs from rfl]
          rw [hyp [] x xs rfl rfl]
          have hsplit : parentSpecAux (pre ++ [x]) xs
              = parentSpecAux (pre ++ [x]) (xs.takeWhile fun y => decide (x.level < y.level))
                ++ parentSpecAux ((pre ++ [x])
                    ++ (xs.takeWhile fun y => decide (x.level < y.level)))
                  (xs.dropWhile fun y => decide (x.level < y.level)) := by
            conv_lhs => rw [← List.takeWhile_append_dropWhile
              (fun y => decide (x.level < y.level)) xs]
            rw [parentSpecAux_append]
          rw [hsplit]
          have ih1 : flattenForest (some x)
              (forestSpec (xs.takeWhile fun y => decide (x.level < y.level)))
              = parentSpecAux (pre ++ [x])
                  (xs.takeWhile fun y => decide (x.level < y.level)) := by
            apply ih _ (Nat.le_trans (List.Sublist.length_le (List.takeWhile_sublist _)) hlen)
            intro l1 y l2 hdec _
            have hy : y ∈ xs.takeWhile (fun y => decide (x.level < y.level)) := by
              rw [hdec]
              exact List.mem_append_right _ (List.mem_cons_self _ _)
            have hxy : decide (x.level < y.level) = true :=
              List.mem_takeWhile_imp (p := fun (y : TocItem) => decide (x.level < y.level)) hy
            unfold nearestSmaller
            rw [List.filter_append]
            rw [show List.filter (fun z => decide (z.level < y.level)) [x] = [x] from by
              simp [hxy]]
            exact List.getLast?_concat _
          have ih2 : flattenForest p
              (forestSpec (xs.dropWhile fun y => decide (x.level < y.level)))
              = parentSpecAux ((pre ++ [x])
                  ++ (xs.takeWhile fun y => decide (x.level < y.level)))
                (xs.dropWhile fun y => decide (x.level < y.level)) := by
            apply ih _ (Nat.le_trans (List.Sublist.length_le (List.dropWhile_sublist _)) hlen)
            intro m1 y m2 hdec hfil
            have hyx : y.level ≤ x.level := by
              cases m1 with
              | nil =>
                  have hdy : xs.dropWhile (fun y => decide (x.level < y.level))
                      = y :: m2 := by simpa using hdec
                  have hf := dropWhile_head_false
                    (p := fun (y : TocItem) => decide (x.level < y.level)) hdy
                  have := of_decide_eq_false hf
                  omega
              | cons z m1' =>
                  have hdz : xs.dropWhile (fun y => decide (x.level < y.level))
                      = z :: (m1' ++ y :: m2) := by simpa using hdec
                  have hzf := of_decide_eq_false (dropWhile_head_false
                    (p := fun (y : TocItem) => decide (x.level < y.level)) hdz)
                  have hzy := (List.filter_eq_nil_iff.mp hfil) z (List.mem_cons_self _ _)
                  simp only [decide_eq_true_eq] at hzy
                  omega
            have hfilx : List.filter (fun z => decide (z.level < y.level)) [x] = [] := by
              simp only [List.filter_cons, List.filter_nil]
              rw [decide_eq_false (by omega : ¬ (x.level < y.level))]
              simp
            have hfilt : (xs.takeWhile fun y' => decide (x.level < y'.level)).filter
                (fun z => decide (z.level < y.level)) = [] := by
              rw [List.filter_eq_nil_iff]
              intro z hz
              have hxz :=
                List.mem_takeWhile_imp (p := fun (y' : TocItem) => decide (x.level < y'.level)) hz
              simp only [decide_eq_true_eq] at hxz ⊢
              omega
            have hred : nearestSmaller ((pre ++ [x])
                  ++ (xs.takeWhile fun y' => decide (x.level < y'.level))) y.level
                = nearestSmaller pre y.level := by
              unfold nearestSmaller
              rw [List.filter_append, List.filter_append, hfilx, hfilt]
              simp
            rw [hred]
            apply hyp (x :: ((xs.takeWhile fun y' => decide (x.level < y'.level)) ++ m1)) y m2
            · conv_lhs => rw [← List.takeWhile_append_dropWhile
                (fun y' => decide (x.level < y'.level)) xs]
              rw [hdec]
              simp [List.append_assoc]
            · rw [List.filter_cons]
              rw [decide_eq_false (by omega : ¬ (x.level < y.level))]
              rw [if_neg (by simp)]
              rw [List.filter_append, hfilt, hfil]
              rfl
          rw [ih1, ih2]

/-- Items with levels `[1, 2, 2, 1, 2]` at increasing start lines. -/
def c2ex : List TocItem :=
  [ TocItem.mk "r1" 0 0 1 "卷", TocItem.mk "c1" 2 2 2 "章"
  , TocItem.mk "c2" 4 4 2 "章", TocItem.mk "r2" 6 6 1 "卷"
  , TocItem.mk "c3" 8 8 2 "章" ]

/-- C2: the stack-based hierarchy builder realizes the span-based forest
specification on the sorted items, and — via the preorder flattening —
every node's parent is exactly the nearest preceding item (in sort order)
with a strictly smaller level; levels [1,2,2,1,2] at increasing start
lines build two roots with 2 and 1 children. -/
theorem build_hierarchy_spec :
    (∀ items : List TocItem,
       build_hierarchy items = forestSpec (sortItems items)
     ∧ flattenForest none (build_hierarchy items) = parentSpecPairs (sortItems items))
  ∧ (build_hierarchy c2ex).map (fun nd => nd.children.length) = [2, 1]
  ∧ (build_hierarchy c2ex).map (fun nd => nd.item.title) = ["r1", "r2"]
  ∧ (build_hierarchy c2ex).map (fun nd => nd.children.map (fun c => c.item.title))
      = [["c1", "c2"], ["c3"]] := by
  refine ⟨?_, by decide, by decide, by decide⟩
  intro items
  refine ⟨build_hierarchy_eq_forestSpec items, ?_⟩
  rw [build_hierarchy_eq_forestSpec items]
  exact flattenForest_parentSpec (sortItems items).length (sortItems items)
    (Nat.le_refl _) [] none (fun l1 y l2 _ _ => rfl)

theorem foldl_max_le_init :
    ∀ (xs : List TocItem) (a : Nat), a ≤ xs.foldl (fun m it => max m it.level) a := by
  intro xs
  induction xs with
  | nil => intro a; exact Nat.le_refl a
  | cons x xs ih =>
      intro a
      exact Nat.le_trans (Nat.le_max_left a x.level) (ih (max a x.level))

theorem foldl_max_mem_le :
    ∀ (xs : List TocItem) (a : Nat), ∀ it ∈ xs,
      it.level ≤ xs.foldl (fun m it => max m it.level) a := by
  intro xs
  induction xs with
  | nil => intro a it hmem; simp at hmem
  | cons x xs ih =>
      intro a it hmem
      rcases List.mem_cons.mp hmem with rfl | hmem2
      · exact Nat.le_trans (Nat.le_max_right a it.level) (foldl_max_le_init xs _)
      · exact ih (max a x.level) it hmem2

theorem foldl_max_attained :
    ∀ (xs : List TocItem) (a : Nat),
      xs.foldl (fun m it => max m it.level) a = a
      ∨ ∃ it ∈ xs, xs.foldl (fun m it => max m it.level) a = it.level := by
  intro xs
  induction xs with
  | nil => intro a; exact Or.inl rfl
  | cons x xs ih =>
      intro a
      rcases ih (max a x.level) with h | ⟨it, hmem, hit⟩
      · rcases max_choice a x.level with hm | hm
        · exact Or.inl (by rw [show (x :: xs).foldl (fun m it => max m it.level) a
              = xs.foldl (fun m it => max m it.level) (max a x.level) from rfl, h, hm])
        · exact Or.inr ⟨x, List.mem_cons_self x xs, by
            rw [show (x :: xs).foldl (fun m it => max m it.level) a
              = xs.foldl (fun m it => max m it.level) (max a x.level) from rfl, h, hm]⟩
      · exact Or.inr ⟨it, List.mem_cons_of_mem x hmem, hit⟩

theorem contentLevelOf_le (items : List TocItem) :
    ∀ it ∈ items, it.level ≤ contentLevelOf items := by
  cases items with
  | nil => intro it hmem; simp at hmem
  | cons x xs =>
      intro it hmem
      rcases List.mem_cons.mp hmem with rfl | hmem2
      · exact foldl_max_le_init xs it.level
      · exact foldl_max_mem_le xs x.level it hmem2

theorem contentLevelOf_attained (items : List TocItem) (h : items ≠ []) :
    ∃ it ∈ items, it.level = contentLevelOf items := by
  cases items with
  | nil => exact absurd rfl h
  | cons x xs =>
      rcases foldl_max_attained xs x.level with hm | ⟨it, hmem, hit⟩
      · exact ⟨x, List.mem_cons_self x xs, hm.symm⟩
      · exact ⟨it, List.mem_cons_of_mem x hmem, hit.symm⟩

theorem contentItemsOf_ne_nil (items : List TocItem) (h : items ≠ []) :
    contentItemsOf items ≠ [] := by
  obtain ⟨it, hmem, hlev⟩ := contentLevelOf_attained items h
  have : it ∈ contentItemsOf items :=
    List.mem_filter.mpr ⟨hmem, by simp [hlev]⟩
  exact List.ne_nil_of_mem this

theorem effectiveItems_ne_nil (lines_len : Nat) (toc_items0 : List TocItem) :
    effectiveItems lines_len toc_items0 ≠ [] := by
  unfold effectiveItems
  by_cases he : toc_items0.isEmpty
  · rw [if_pos he]; simp
  · rw [if_neg he]
    cases toc_items0 with
    | nil => simp at he
    | cons a as => simp

/-- One level-1 root with one level-2 leaf. -/
def c3ex : List TocItem :=
  [TocItem.mk "卷一" 0 0 1 "卷", TocItem.mk "第一章" 1 5 2 "章"]

/-- C3: the content level is the maximum level over the items (attained, and
an upper bound); a node at the content level with a registered document
maps to exactly that content document; a shallower node wraps its
children's non-empty collection in one section named after its title and
contributes nothing when that collection is empty; one level-1 root over
one level-2 leaf exports as exactly one section wrapping one document; and
when the walk yields nothing the flat content-document list is exposed, so
export never returns an empty structure on a non-empty corpus. -/
theorem build_epub_toc_spec :
    (∀ items : List TocItem, items ≠ [] →
       (∃ it ∈ items, it.level = contentLevelOf items)
     ∧ (∀ it ∈ items, it.level ≤ contentLevelOf items))
  ∧ (∀ (cl : Nat) (keys : List (Nat × Nat × String)) (item : TocItem)
       (children : List HNode),
       item.level = cl → docKey item ∈ keys →
       entriesOfNode cl keys (HNode.node item children)
         = [ExportEntry.doc (docKey item)])
  ∧ (∀ (cl : Nat) (keys : List (Nat × Nat × String)) (item : TocItem)
       (children : List HNode), item.level < cl →
       (entriesOfForest cl keys children = [] →
         entriesOfNode cl keys (HNode.node item children) = [])
     ∧ (entriesOfForest cl keys children ≠ [] →
         entriesOfNode cl keys (HNode.node item children)
           = [ExportEntry.sec item.title (entriesOfForest cl keys children)]))
  ∧ build_epub_toc 10 c3ex
      = Except.ok [ExportEntry.sec "卷一" [ExportEntry.doc (1, 2, "第一章")]]
  ∧ (∀ (lines_len : Nat) (toc_items0 : List TocItem), lines_len ≠ 0 →
       ∃ es, build_epub_toc lines_len toc_items0 = Except.ok es ∧ es ≠ [])
  ∧ (∀ (lines_len : Nat) (toc_items0 : List TocItem), lines_len ≠ 0 →
       build_epub_toc lines_len toc_items0
         = Except.ok (if (tocEntriesOf (effectiveItems lines_len toc_items0)).isEmpty
             then (contentItemsOf (effectiveItems lines_len toc_items0)).map
               (fun it => ExportEntry.doc (docKey it))
             else tocEntriesOf (effectiveItems lines_len toc_items0))) := by
  refine ⟨?_, ?_, ?_, rfl, ?_, ?_⟩
  · intro items hne
    exact ⟨contentLevelOf_attained items hne, contentLevelOf_le items⟩
  · intro cl keys item children h1 h2
    unfold entriesOfNode
    rw [if_pos ⟨h1, h2⟩]
  · intro cl keys item children hlt
    have hne : ¬ item.level = cl := by omega
    constructor
    · intro hempty
      unfold entriesOfNode
      rw [if_neg (fun hc => absurd hc.1 hne)]
      rw [hempty]
      rfl
    · intro hnonempty
      unfold entriesOfNode
      rw [if_neg (fun hc => absurd hc.1 hne)]
      show (if (entriesOfForest cl keys children).isEmpty then []
        else [ExportEntry.sec item.title (entriesOfForest cl keys children)]) = _
      rw [if_neg (fun hc => hnonempty (by
        cases h' : entriesOfForest cl keys children with
        | nil => rfl
        | cons a as => rw [h'] at hc; simp at hc))]
  · intro lines_len toc0 h
    have hci := contentItemsOf_ne_nil _ (effectiveItems_ne_nil lines_len toc0)
    unfold build_epub_toc
    rw [if_neg h]
    by_cases hent : (tocEntriesOf (effectiveItems lines_len toc0)).isEmpty
    · refine ⟨(contentItemsOf (effectiveItems lines_len toc0)).map
          (fun it => ExportEntry.doc (docKey it)), ?_, ?_⟩
      · show (if (tocEntriesOf (effectiveItems lines_len toc0)).isEmpty then
            Except.ok ((contentItemsOf (effectiveItems lines_len toc0)).map
              (fun it => ExportEntry.doc (docKey it)))
          else Except.ok (tocEntriesOf (effectiveItems lines_len toc0))) = _
        rw [if_pos hent]
      · intro hc
        rw [List.map_eq_nil_iff] at hc
        exact hci hc
    · refine ⟨tocEntriesOf (effectiveItems lines_len toc0), ?_, ?_⟩
      · show (if (tocEntriesOf (effectiveItems lines_len toc0)).isEmpty then
            Except.ok ((contentItemsOf (effectiveItems lines_len toc0)).map
              (fun it => ExportEntry.doc (docKey it)))
          else Except.ok (tocEntriesOf (effectiveItems lines_len toc0))) = _
        rw [if_neg hent]
      · intro hc
        rw [hc] at hent
        exact hent rfl
  · intro lines_len toc0 h
    unfold build_epub_toc
    rw [if_neg h]
    show (if (tocEntriesOf (effectiveItems lines_len toc0)).isEmpty then
        Except.ok ((contentItemsOf (effectiveItems lines_len toc0)).map
          (fun it => ExportEntry.doc (docKey it)))
      else Except.ok (tocEntriesOf (effectiveItems lines_len toc0))) = _
    by_cases hent : (tocEntriesOf (effectiveItems lines_len toc0)).isEmpty
    · rw [if_pos hent, if_pos hent]
    · rw [if_neg hent, if_neg hent]

/-- Witness for C3: the export-assembly facts at the one-root-one-leaf
collection and concrete nodes. -/
theorem build_epub_toc_spec_witness :
    ((∃ it ∈ c3ex, it.level = contentLevelOf c3ex)
      ∧ (∀ it ∈ c3ex, it.level ≤ contentLevelOf c3ex))
  ∧ entriesOfNode 2 [(1, 2, "第一章")]
      (HNode.node (TocItem.mk "第一章" 1 5 2 "章") [])
      = [ExportEntry.doc (docKey (TocItem.mk "第一章" 1 5 2 "章"))]
  ∧ entriesOfNode 2 [] (HNode.node (TocItem.mk "卷一" 0 0 1 "卷") []) = []
  ∧ entriesOfNode 2 [(1, 2, "第一章")]
      (HNode.node (TocItem.mk "卷一" 0 0 1 "卷")
        [HNode.node (TocItem.mk "第一章" 1 5 2 "章") []])
      = [ExportEntry.sec "卷一"
          (entriesOfForest 2 [(1, 2, "第一章")]
            [HNode.node (TocItem.mk "第一章" 1 5 2 "章") []])]
  ∧ (∃ es, build_epub_toc 10 c3ex = Except.ok es ∧ es ≠ [])
  ∧ build_epub_toc 10 c3ex
      = Except.ok (if (tocEntriesOf (effectiveItems 10 c3ex)).isEmpty
          then (contentItemsOf (effectiveItems 10 c3ex)).map
            (fun it => ExportEntry.doc (docKey it))
          else tocEntriesOf (effectiveItems 10 c3ex)) :=
  ⟨build_epub_toc_spec.1 c3ex (by simp [c3ex]),
   build_epub_toc_spec.2.1 2 [(1, 2, "第一章")] (TocItem.mk "第一章" 1 5 2 "章") []
     rfl (by decide),
   (build_epub_toc_spec.2.2.1 2 [] (TocItem.mk "卷一" 0 0 1 "卷") [] (by decide)).1 rfl,
   (build_epub_toc_spec.2.2.1 2 [(1, 2, "第一章")] (TocItem.mk "卷一" 0 0 1 "卷")
     [HNode.node (TocItem.mk "第一章" 1 5 2 "章") []] (by decide)).2
     (List.cons_ne_nil _ _),
   build_epub_toc_spec.2.2.2.2.1 10 c3ex (by decide),
   build_epub_toc_spec.2.2.2.2.2 10 c3ex (by decide)⟩
